import Mathlib

/-!
# 1-wire Prometheus exporter: the scrape collector

A shallow embedding of `collector.Describe` and `collector.Collect` of `src/main.go`
and the properties of one scrape.

* Go strings and file contents are byte sequences (`Bytes`).
* The flag `devices.path`, the filesystem seen through `os.ReadFile` and the library function
  `strconv.ParseFloat` are the fields of an environment `Env`; every general theorem holds
  for all of them.
* `float64` values are modelled exactly (sign, mantissa, binary exponent); the only float
  operation of the program, `temperature/1000.0`, is the correctly rounded division.
* The goroutines of `Collect` are threads of an interleaving transition system
  (`step`, `run`, `Reachable`): one thread for the body of `Collect`, one per launched worker.
-/

namespace OneWire

/-! ## Byte strings -/

/-- A Go string or file content: a sequence of bytes. -/
abbrev Bytes := List UInt8

/-- The bytes of an ASCII literal. -/
def bytes (s : String) : Bytes := s.data.map (fun c => c.toNat.toUInt8)

/-- The newline byte, the separator `"\n"` of line 116. -/
def newline : UInt8 := 10

/-- The function `strings.Split(s, sep)` for a one-byte separator: the pieces of `s` between
the occurrences of `sep`, in order; a string without `sep` gives the one piece `s`. -/
def stringsSplit (sep : UInt8) : Bytes → List Bytes
  | [] => [[]]
  | c :: cs =>
    if c = sep then [] :: stringsSplit sep cs
    else
      match stringsSplit sep cs with
      | [] => [[c]]
      | piece :: rest => (c :: piece) :: rest

/-- The slice expression `s[lo:hi]` of a string or slice: `none` is the run-time panic
"slice bounds out of range", raised unless `0 ≤ lo ≤ hi ≤ len(s)`. -/
def goSlice {α : Type} (s : List α) (lo hi : Int) : Option (List α) :=
  if 0 ≤ lo ∧ lo ≤ hi ∧ hi ≤ (s.length : Int) then
    some ((s.drop lo.toNat).take (hi.toNat - lo.toNat))
  else none

/-- Lines 116 to 119 of `Collect`: split the listing on `"\n"` and, when the result is not
empty, drop its last entry. -/
def listSensors (data : Bytes) : Option (List Bytes) :=
  let sensors := stringsSplit newline data
  if sensors.length > 0 then goSlice sensors 0 ((sensors.length : Int) - 1)
  else some sensors

/-! ## The type `float64` -/

/-- Auxiliary loop of `bitLength`, with fuel. -/
def bitLengthAux : Nat → Nat → Nat
  | 0, _ => 0
  | fuel + 1, n => if n = 0 then 0 else bitLengthAux fuel (n / 2) + 1

/-- The number of binary digits of `n`: `2 ^ (bitLength n - 1) ≤ n < 2 ^ bitLength n` for
`0 < n`. -/
def bitLength (n : Nat) : Nat := bitLengthAux n n

/-- A value of Go's `float64` (IEEE 754 binary64). `fin neg mant exp` is the finite number
`± mant * 2 ^ exp` in canonical form: `-1074 ≤ exp ≤ 971`, `mant < 2 ^ 53`, and
`2 ^ 52 ≤ mant` unless `exp = -1074`. Both signed zeros are values. -/
inductive Float64 where
  | nan : Float64
  | inf (neg : Bool) : Float64
  | fin (neg : Bool) (mant : Nat) (exp : Int) : Float64
  deriving DecidableEq, Repr

/-- The rational value of a finite `float64`. -/
def Float64.toRat : Float64 → Option ℚ
  | .fin neg mant exp => some ((if neg then -1 else 1) * (mant : ℚ) * (2 : ℚ) ^ exp)
  | _ => none

/-- The integer `⌊log₂ (num / den)⌋`, for positive `num` and `den`. -/
def floorLog2 (num den : Nat) : Int :=
  let k : Int := (bitLength num : Int) - (bitLength den : Int)
  if den * 2 ^ k.toNat ≤ num * 2 ^ (-k).toNat then k else k - 1

/-- The integer nearest to `num / den`, ties to the even one. -/
def roundHalfEven (num den : Nat) : Nat :=
  let q := num / den
  let r := num % den
  if 2 * r < den then q
  else if den < 2 * r then q + 1
  else if q % 2 = 0 then q else q + 1

/-- The `float64` nearest to `± num / den` (IEEE 754 round to nearest, ties to even), for
`0 < den`; an overflow gives the infinity. -/
def f64Round (neg : Bool) (num den : Nat) : Float64 :=
  if num = 0 then .fin neg 0 (-1074)
  else
    let p : Int := max (floorLog2 num den - 52) (-1074)
    let m := roundHalfEven (num * 2 ^ (-p).toNat) (den * 2 ^ p.toNat)
    let m1 := if m = 2 ^ 53 then 2 ^ 52 else m
    let p1 := if m = 2 ^ 53 then p + 1 else p
    if 971 < p1 then .inf neg else .fin neg m1 p1

/-- The `float64` quotient `x / d` for a positive integer constant `d` that is itself a
`float64`; line 139 uses it as `temperature/1000.0`. -/
def f64DivNat (x : Float64) (d : Nat) : Float64 :=
  match x with
  | .nan => .nan
  | .inf neg => .inf neg
  | .fin neg mant exp => f64Round neg (mant * 2 ^ exp.toNat) (d * 2 ^ (-exp).toNat)

/-- The `float64` nearest to the natural number `n`. -/
def Float64.ofNat (n : Nat) : Float64 := f64Round false n 1

/-! ## The descriptor and the metric constructor -/

/-- The function `prometheus.BuildFQName`: the non-empty parts joined by `"_"`, and the empty
name when `name` is empty. -/
def BuildFQName (namespace_ subsystem name : String) : String :=
  if name = "" then ""
  else if namespace_ ≠ "" ∧ subsystem ≠ "" then
    String.intercalate "_" [namespace_, subsystem, name]
  else if namespace_ ≠ "" then String.intercalate "_" [namespace_, name]
  else if subsystem ≠ "" then String.intercalate "_" [subsystem, name]
  else name

/-- A metric descriptor as built by `prometheus.NewDesc` (no constant labels). -/
structure Desc where
  fqName : String
  help : String
  variableLabels : List String
  deriving DecidableEq, Repr

/-- The constant `exporter_name` of line 23. -/
def exporter_name : String := "onewire"

/-- The package variable `Temperature` of lines 38 to 45. -/
def Temperature : Desc :=
  { fqName := BuildFQName exporter_name "temperature" "celcius"
    help := "Temperature of the sensor."
    variableLabels := ["sensor_id", "sensor_name"] }

/-- The descriptors `collector.Describe` sends to its channel (line 103): the body of the
method is empty. -/
def Describe : List Desc := []

/-- The value types of a constant metric. -/
inductive ValueType where
  | counter : ValueType
  | gauge : ValueType
  | untyped : ValueType
  deriving DecidableEq, Repr

/-- A constant metric: a sample. -/
structure Metric where
  desc : Desc
  valueType : ValueType
  value : Float64
  labelValues : List Bytes
  deriving DecidableEq, Repr

/-- The value of the label called `name`, if the metric has it. -/
def Metric.label (m : Metric) (name : String) : Option Bytes :=
  (m.desc.variableLabels.zip m.labelValues).lookup name

/-- Whether `b` lies in the closed range from `lo` to `hi`. -/
def byteIn (b lo hi : UInt8) : Bool := decide (lo ≤ b) && decide (b ≤ hi)

/-- The function `utf8.ValidString`: the bytes are a sequence of well-formed UTF-8 encodings
(no overlong form, no surrogate, nothing above U+10FFFF). -/
def utf8ValidString : Bytes → Bool
  | [] => true
  | b0 :: rest =>
    if b0 < 0x80 then utf8ValidString rest
    else if byteIn b0 0xC2 0xDF then
      match rest with
      | b1 :: rest1 => byteIn b1 0x80 0xBF && utf8ValidString rest1
      | _ => false
    else if byteIn b0 0xE0 0xEF then
      match rest with
      | b1 :: b2 :: rest2 =>
        byteIn b1 (if b0 = 0xE0 then 0xA0 else 0x80) (if b0 = 0xED then 0x9F else 0xBF)
          && byteIn b2 0x80 0xBF && utf8ValidString rest2
      | _ => false
    else if byteIn b0 0xF0 0xF4 then
      match rest with
      | b1 :: b2 :: b3 :: rest3 =>
        byteIn b1 (if b0 = 0xF0 then 0x90 else 0x80) (if b0 = 0xF4 then 0x8F else 0xBF)
          && byteIn b2 0x80 0xBF && byteIn b3 0x80 0xBF && utf8ValidString rest3
      | _ => false
    else false

/-- The function `prometheus.MustNewConstMetric`: `none` is its panic, raised when the number
of label values differs from the number of variable labels of the descriptor or when a label
value is not valid UTF-8. -/
def MustNewConstMetric (desc : Desc) (valueType : ValueType) (value : Float64)
    (labelValues : List Bytes) : Option Metric :=
  if labelValues.length = desc.variableLabels.length ∧ labelValues.all utf8ValidString then
    some { desc := desc, valueType := valueType, value := value, labelValues := labelValues }
  else none

/-! ## The environment of a scrape and the body of a worker -/

/-- What a scrape depends on outside the program: the value of the flag `devices.path`, the
filesystem as seen by `os.ReadFile` (`none`: the read returns an error) and
`strconv.ParseFloat(·, 64)` (`none`: it returns an error). -/
structure Env where
  sensorPath : Bytes
  readFile : Bytes → Option Bytes
  parseFloat : Bytes → Option Float64

/-- The path of the listing file (line 110). -/
def listingPath (env : Env) : Bytes :=
  env.sensorPath ++ bytes "w1_bus_master1/w1_master_slaves"

/-- The path of the value file of `sensor` (line 127). -/
def temperaturePath (env : Env) (sensor : Bytes) : Bytes :=
  env.sensorPath ++ sensor ++ bytes "/temperature"

/-- How the body of a worker ends once `os.ReadFile` has answered. -/
inductive Outcome where
  | readError : Outcome
  | parseError : Outcome
  | panic : Outcome
  | emit (m : Metric) : Outcome
  deriving DecidableEq, Repr

/-- Lines 128 to 139 of the worker, given the answer `sensorData` of `os.ReadFile`: the error
check, the slice that strips the last byte, the parse, and the construction of the metric to
send. -/
def workerBody (env : Env) (sensor : Bytes) (sensorData : Option Bytes) : Outcome :=
  match sensorData with
  | none => .readError
  | some data =>
    match goSlice data 0 ((data.length : Int) - 1) with
    | none => .panic
    | some text =>
      match env.parseFloat text with
      | none => .parseError
      | some temperature =>
        match MustNewConstMetric Temperature .gauge (f64DivNat temperature 1000)
            [sensor, sensor] with
        | none => .panic
        | some m => .emit m

/-- The outcome of the worker of `sensor` in the environment `env`. -/
def sensorOutcome (env : Env) (sensor : Bytes) : Outcome :=
  workerBody env sensor (env.readFile (temperaturePath env sensor))

/-! ## The goroutines of `Collect` as an interleaving transition system -/

/-- Where a worker goroutine (lines 123 to 140) stands. Its deferred `Done` runs when it
returns and also when it panics. -/
inductive WorkerPc where
  /-- Launched by the `go` statement; `os.ReadFile` not yet called. -/
  | launched : WorkerPc
  /-- The call of `os.ReadFile` (line 127) has answered `sensorData`. -/
  | fileRead (sensorData : Option Bytes) : WorkerPc
  /-- The metric is built (line 139); the send on `ch` is pending. -/
  | sending (m : Metric) : WorkerPc
  /-- The body is over (lines 130, 136 or after the send); the deferred `Done` is pending. -/
  | returning : WorkerPc
  /-- A run-time panic is raised (line 133 or line 139); the deferred `Done` is pending. -/
  | panicking : WorkerPc
  /-- The deferred `Done` has run and the goroutine has ended. -/
  | finished : WorkerPc
  /-- The deferred `Done` has run during a panic; the runtime is about to abort the process. -/
  | aborting : WorkerPc
  deriving DecidableEq, Repr

/-- Where the goroutine running the body of `Collect` (lines 106 to 142) stands. -/
inductive MainPc where
  /-- The wait group is created and `Wait` is deferred; line 110 not yet run. -/
  | start : MainPc
  /-- In the loop of line 121, with the sensors still to be launched. -/
  | ranging (rest : List Bytes) : MainPc
  /-- At the deferred `Wait` (after line 113 or after the loop). -/
  | waiting : MainPc
  /-- At the deferred `Wait` after a panic of the slice of line 118. -/
  | panicking : MainPc
  /-- The method `Collect` has returned. -/
  | returned : MainPc
  deriving DecidableEq, Repr

/-- The state of one scrape. -/
structure State where
  /-- The goroutine of `Collect`. -/
  main : MainPc
  /-- The counter of the wait group `waitAfterMetrics`. -/
  counter : Int
  /-- The workers launched so far, in launch order, each with its sensor. -/
  workers : List (Bytes × WorkerPc)
  /-- The metrics sent on `ch` so far, in the order of the sends. -/
  sink : List Metric
  /-- The paths passed to `os.ReadFile` so far. -/
  reads : List Bytes
  /-- The process has been aborted by an unrecovered panic. -/
  crashed : Bool
  deriving DecidableEq, Repr

/-- The state in which `Collect` is entered. -/
def State.init : State :=
  { main := .start, counter := 0, workers := [], sink := [], reads := [], crashed := false }

/-- A goroutine: the one of `Collect`, or the worker launched as number `i`. -/
inductive Thread where
  | main : Thread
  | worker (i : Nat) : Thread
  deriving DecidableEq, Repr

/-- The program counter a worker moves to after the pure part of its body. -/
def Outcome.next : Outcome → WorkerPc
  | .readError => .returning
  | .parseError => .returning
  | .panic => .panicking
  | .emit m => .sending m

/-- One step of the goroutine of `Collect`; `none` when it cannot move (it is blocked in
`Wait` or has returned). `wg.Add(1)` and the `go` statement of one iteration are one step. -/
def stepMain (env : Env) (s : State) : Option State :=
  match s.main with
  | .start =>
    match env.readFile (listingPath env) with
    | none => some { s with main := .waiting, reads := s.reads ++ [listingPath env] }
    | some data =>
      match listSensors data with
      | none => some { s with main := .panicking, reads := s.reads ++ [listingPath env] }
      | some sensors =>
        some { s with main := .ranging sensors, reads := s.reads ++ [listingPath env] }
  | .ranging [] => some { s with main := .waiting }
  | .ranging (sensor :: rest) =>
    some { s with main := .ranging rest, counter := s.counter + 1,
                  workers := s.workers ++ [(sensor, .launched)] }
  | .waiting => if s.counter = 0 then some { s with main := .returned } else none
  | .panicking => if s.counter = 0 then some { s with crashed := true } else none
  | .returned => none

/-- One step of the worker launched as number `i`; `none` when there is no such worker or it
has ended. The send on `ch` is a step of its own, taken whenever the worker is scheduled. -/
def stepWorker (env : Env) (s : State) (i : Nat) : Option State :=
  match s.workers[i]? with
  | none => none
  | some (sensor, pc) =>
    match pc with
    | .launched =>
      some { s with
        workers := s.workers.set i
          (sensor, .fileRead (env.readFile (temperaturePath env sensor)))
        reads := s.reads ++ [temperaturePath env sensor] }
    | .fileRead sensorData =>
      some { s with workers := s.workers.set i (sensor, (workerBody env sensor sensorData).next) }
    | .sending m =>
      some { s with sink := s.sink ++ [m], workers := s.workers.set i (sensor, .returning) }
    | .returning =>
      some { s with counter := s.counter - 1, workers := s.workers.set i (sensor, .finished) }
    | .panicking =>
      some { s with counter := s.counter - 1, workers := s.workers.set i (sensor, .aborting) }
    | .aborting => some { s with crashed := true }
    | .finished => none

/-- One step of the scrape by the goroutine `t`; nothing moves once the process is aborted. -/
def step (env : Env) (s : State) (t : Thread) : Option State :=
  if s.crashed then none
  else
    match t with
    | .main => stepMain env s
    | .worker i => stepWorker env s i

/-- The scrape under the schedule `sched`, from the state `s`; `none` when the schedule asks a
goroutine to move that cannot. -/
def run (env : Env) : List Thread → State → Option State
  | [], s => some s
  | t :: sched, s =>
    match step env s t with
    | none => none
    | some s1 => run env sched s1

/-- The states some interleaving of the goroutines of one `Collect` leads to. -/
def Reachable (env : Env) (s : State) : Prop :=
  ∃ sched : List Thread, run env sched State.init = some s

/-- No goroutine can move: the scrape is over. -/
def Final (env : Env) (s : State) : Prop := ∀ t : Thread, step env s t = none

/-! ## An environment for examples -/

/-- The number written by a sequence of decimal digits, `none` if some byte is not a digit. -/
def decimalValue : Bytes → Nat → Option Nat
  | [], acc => some acc
  | b :: rest, acc =>
    if byteIn b 48 57 then decimalValue rest (acc * 10 + (b.toNat - 48)) else none

/-- A parser for the examples: on a non-empty sequence of decimal digits it returns what
`strconv.ParseFloat` returns, the nearest `float64` (an error on overflow); it rejects every
other text. -/
def parseDigits (text : Bytes) : Option Float64 :=
  if text = [] then none
  else
    match decimalValue text 0 with
    | none => none
    | some n =>
      match Float64.ofNat n with
      | .fin neg mant exp => some (.fin neg mant exp)
      | _ => none

/-- A filesystem given as a table of paths and contents; every other path is unreadable. -/
def tableFS (table : List (Bytes × Bytes)) (path : Bytes) : Option Bytes :=
  table.lookup path

/-- The example environment with the default `devices.path` and the files of `table`. -/
def exampleEnv (table : List (String × String)) : Env :=
  { sensorPath := bytes "/sys/bus/w1/devices/"
    readFile := tableFS (table.map fun e => (bytes e.1, bytes e.2))
    parseFloat := parseDigits }

/-! ## Invariants of the transition system -/

/-- The deferred `Done` of the worker has not run yet. -/
def WorkerPc.pending : WorkerPc → Bool
  | .finished => false
  | .aborting => false
  | _ => true

/-- The number of launched workers whose `Done` has not run yet. -/
def pendingCount (ws : List (Bytes × WorkerPc)) : Nat := ws.countP fun w => w.2.pending

/-- The metric the worker of `sensor` sends in `env`, if it sends one. -/
def emitted (env : Env) (sensor : Bytes) : Option Metric :=
  match sensorOutcome env sensor with
  | .emit m => some m
  | _ => none

/-- The metrics a worker has sent when it stands at its program counter. -/
def sentBy (env : Env) (w : Bytes × WorkerPc) : List Metric :=
  match w.2 with
  | .returning => (emitted env w.1).toList
  | .finished => (emitted env w.1).toList
  | _ => []

/-- The program counter of a worker agrees with the outcome its sensor has in `env`. -/
def WorkerOk (env : Env) (w : Bytes × WorkerPc) : Prop :=
  match w.2 with
  | .launched => True
  | .fileRead sensorData => sensorData = env.readFile (temperaturePath env w.1)
  | .sending m => sensorOutcome env w.1 = .emit m
  | .returning => sensorOutcome env w.1 ≠ .panic
  | .finished => sensorOutcome env w.1 ≠ .panic
  | .panicking => sensorOutcome env w.1 = .panic
  | .aborting => sensorOutcome env w.1 = .panic

/-- The sensors one scrape discovers in `env`: the entries of the listing, none when the
listing file is unreadable. -/
def discovered (env : Env) : List Bytes :=
  match env.readFile (listingPath env) with
  | none => []
  | some data => (listSensors data).getD []

/-- What the goroutine of `Collect` has done so far agrees with the listing. -/
def MainOk (env : Env) (s : State) : Prop :=
  match s.main with
  | .start => s.workers = [] ∧ s.reads = []
  | .ranging rest =>
    env.readFile (listingPath env) ≠ none ∧ discovered env = s.workers.map Prod.fst ++ rest
  | .waiting =>
    (env.readFile (listingPath env) = none → s.reads = [listingPath env]) ∧
      discovered env = s.workers.map Prod.fst
  | .panicking =>
    s.workers = [] ∧ ∃ data, env.readFile (listingPath env) = some data ∧ listSensors data = none
  | .returned =>
    (env.readFile (listingPath env) = none → s.reads = [listingPath env]) ∧
      discovered env = s.workers.map Prod.fst ∧ pendingCount s.workers = 0

/-- The invariant of one scrape. -/
structure Inv (env : Env) (s : State) : Prop where
  counter_eq : s.counter = (pendingCount s.workers : Int)
  workers_ok : ∀ w ∈ s.workers, WorkerOk env w
  sink_perm : s.sink.Perm (s.workers.flatMap (sentBy env))
  main_ok : MainOk env s
  crashed_ok : s.crashed = true →
    s.main = .panicking ∨ ∃ sensor, (sensor, WorkerPc.aborting) ∈ s.workers

/-! ## Every scrape ends -/

/-- The number of steps a worker can still take (the abort of the process apart). -/
def WorkerPc.remaining : WorkerPc → Nat
  | .launched => 4
  | .fileRead _ => 3
  | .sending _ => 2
  | .returning => 1
  | .panicking => 2
  | .aborting => 1
  | .finished => 0

/-- A bound on the steps the goroutine of `Collect` and the workers it has yet to launch can
still take. -/
def mainRemaining (env : Env) : MainPc → Nat
  | .start => 5 * (discovered env).length + 3
  | .ranging rest => 5 * rest.length + 2
  | .waiting => 1
  | .panicking => 1
  | .returned => 0

/-- A bound on the number of steps left in a scrape. -/
def stepsLeft (env : Env) (s : State) : Nat :=
  mainRemaining env s.main + (s.workers.map fun w => w.2.remaining).sum +
    (if s.crashed = true then 0 else 1)

/-- The scrape of the specification's example: the listing `"10-0001\n10-0002\n\n"` and the
value files `"23250\n"` and `"18900\n"`. -/
def exampleScrape : Env :=
  exampleEnv
    [("/sys/bus/w1/devices/w1_bus_master1/w1_master_slaves", "10-0001\n10-0002\n\n"),
     ("/sys/bus/w1/devices/10-0001/temperature", "23250\n"),
     ("/sys/bus/w1/devices/10-0002/temperature", "18900\n")]

/-- An interleaving of the example scrape: the three workers are launched, then take turns. -/
def exampleSchedule : List Thread :=
  [.main, .main, .main, .main, .worker 1, .worker 0, .worker 2, .main, .worker 2, .worker 0,
   .worker 1, .worker 1, .worker 2, .worker 0, .worker 1, .worker 0, .main]

/-- The metric of `sensor` with the value `value`. -/
def temperatureMetric (sensor : Bytes) (value : Float64) : Metric :=
  { desc := Temperature, valueType := .gauge, value := value, labelValues := [sensor, sensor] }

/-- The `float64` written `23.25`: it is `93 / 4`. -/
def f64_23_25 : Float64 := .fin false 6544293208522752 (-48)

/-- The `float64` written `18.9`: the one nearest to `189 / 10`. -/
def f64_18_9 : Float64 := .fin false 5319877059831398 (-48)

/-- The `float64` written `2.325`: the one nearest to `93 / 40`. -/
def f64_2_325 : Float64 := .fin false 5235434566818202 (-51)

/-- The state the example scrape ends in under `exampleSchedule`. -/
def exampleFinal : State := (run exampleScrape exampleSchedule State.init).getD State.init

/-- A scrape whose listing names the sensor `10-0001` on two lines. -/
def duplicateScrape : Env :=
  exampleEnv
    [("/sys/bus/w1/devices/w1_bus_master1/w1_master_slaves", "10-0001\n10-0001\n"),
     ("/sys/bus/w1/devices/10-0001/temperature", "23250\n")]

/-- An interleaving of `duplicateScrape` that runs to the return of `Collect`. -/
def duplicateSchedule : List Thread :=
  [.main, .main, .main, .main, .worker 0, .worker 1, .worker 0, .worker 1, .worker 0,
   .worker 1, .worker 0, .worker 1, .main]

/-- The state `duplicateScrape` ends in under `duplicateSchedule`. -/
def duplicateFinal : State := (run duplicateScrape duplicateSchedule State.init).getD State.init

/-- A scrape with three listing lines for two sensors: `10-0001` is named twice. -/
def repeatedScrape : Env :=
  exampleEnv
    [("/sys/bus/w1/devices/w1_bus_master1/w1_master_slaves", "10-0001\n10-0002\n10-0001\n"),
     ("/sys/bus/w1/devices/10-0001/temperature", "23250\n"),
     ("/sys/bus/w1/devices/10-0002/temperature", "18900\n")]

/-- An interleaving of `repeatedScrape`: each worker runs to its end when launched. -/
def repeatedSchedule : List Thread :=
  [.main, .main, .worker 0, .worker 0, .worker 0, .worker 0, .main, .worker 1, .worker 1,
   .worker 1, .worker 1, .main, .worker 2, .worker 2, .worker 2, .worker 2, .main, .main]

/-- A scrape in which the value file of `10-0001` is empty and the one of `10-0002` is fine. -/
def emptyFileScrape : Env :=
  exampleEnv
    [("/sys/bus/w1/devices/w1_bus_master1/w1_master_slaves", "10-0001\n10-0002\n"),
     ("/sys/bus/w1/devices/10-0001/temperature", ""),
     ("/sys/bus/w1/devices/10-0002/temperature", "18900\n")]

/-- An interleaving of `emptyFileScrape` in which the worker of `10-0001` runs first. -/
def emptyFileSchedule : List Thread :=
  [.main, .main, .main, .worker 0, .worker 0, .worker 0, .worker 0]

/-- A scrape in which the value file of `10-0001` holds no number. -/
def badNumberScrape : Env :=
  exampleEnv
    [("/sys/bus/w1/devices/w1_bus_master1/w1_master_slaves", "10-0001\n10-0002\n"),
     ("/sys/bus/w1/devices/10-0001/temperature", "notanumber\n"),
     ("/sys/bus/w1/devices/10-0002/temperature", "18900\n")]

/-! ## The rounding of `float64` is accurate -/

theorem bitLengthAux_spec (fuel n : Nat) (hn : 0 < n) (hfuel : n ≤ fuel) :
    2 ^ (bitLengthAux fuel n - 1) ≤ n ∧ n < 2 ^ bitLengthAux fuel n := by
  induction fuel generalizing n with
  | zero => omega
  | succ fuel ih =>
    have hne : n ≠ 0 := by omega
    simp only [bitLengthAux, hne, if_false, Nat.add_sub_cancel]
    by_cases h1 : n / 2 = 0
    · have hn1 : n = 1 := by omega
      subst hn1
      cases fuel <;> simp [bitLengthAux]
    · have hpos : 0 < n / 2 := Nat.pos_of_ne_zero h1
      obtain ⟨hlo, hhi⟩ := ih (n / 2) hpos (by omega)
      have hb : 1 ≤ bitLengthAux fuel (n / 2) := by
        cases fuel with
        | zero => omega
        | succ f => simp [bitLengthAux, h1]
      have e1 : bitLengthAux fuel (n / 2) = (bitLengthAux fuel (n / 2) - 1) + 1 := by omega
      constructor
      · rw [e1, pow_succ]
        omega
      · rw [pow_succ]
        omega

theorem bitLength_spec (n : Nat) (hn : 0 < n) :
    2 ^ (bitLength n - 1) ≤ n ∧ n < 2 ^ bitLength n :=
  bitLengthAux_spec n n hn (Nat.le_refl n)

theorem bitLength_pos (n : Nat) (hn : 0 < n) : 0 < bitLength n := by
  have := (bitLength_spec n hn).2
  by_contra h
  have h0 : bitLength n = 0 := by omega
  rw [h0] at this
  omega

theorem two_zpow_split (k : Int) :
    (2 : ℚ) ^ k = (2 : ℚ) ^ k.toNat / (2 : ℚ) ^ (-k).toNat := by
  rcases le_total 0 k with h | h
  · have h1 : (-k).toNat = 0 := by omega
    have h2 : k = (k.toNat : Int) := by omega
    rw [h1, pow_zero, div_one]
    conv_lhs => rw [h2]
    exact zpow_natCast 2 k.toNat
  · have h1 : k.toNat = 0 := by omega
    have h2 : k = -((-k).toNat : Int) := by omega
    rw [h1, pow_zero]
    conv_lhs => rw [h2]
    rw [zpow_neg, zpow_natCast, one_div]

theorem floorLog2_spec (num den : Nat) (hnum : 0 < num) (hden : 0 < den) :
    (2 : ℚ) ^ floorLog2 num den ≤ (num : ℚ) / den ∧
      (num : ℚ) / den < (2 : ℚ) ^ (floorLog2 num den + 1) := by
  obtain ⟨hn1, hn2⟩ := bitLength_spec num hnum
  obtain ⟨hd1, hd2⟩ := bitLength_spec den hden
  have hbn := bitLength_pos num hnum
  have hbd := bitLength_pos den hden
  have hdenq : (0 : ℚ) < den := by exact_mod_cast hden
  -- the bounds in ℚ
  have qn1 : (2 : ℚ) ^ ((bitLength num : Int) - 1) ≤ num := by
    have : ((bitLength num : Int) - 1) = ((bitLength num - 1 : Nat) : Int) := by omega
    rw [this, zpow_natCast]
    exact_mod_cast hn1
  have qn2 : (num : ℚ) < (2 : ℚ) ^ (bitLength num : Int) := by
    rw [zpow_natCast]
    exact_mod_cast hn2
  have qd1 : (2 : ℚ) ^ ((bitLength den : Int) - 1) ≤ den := by
    have : ((bitLength den : Int) - 1) = ((bitLength den - 1 : Nat) : Int) := by omega
    rw [this, zpow_natCast]
    exact_mod_cast hd1
  have qd2 : (den : ℚ) < (2 : ℚ) ^ (bitLength den : Int) := by
    rw [zpow_natCast]
    exact_mod_cast hd2
  have two_pos : ∀ k : Int, (0 : ℚ) < (2 : ℚ) ^ k := fun k => zpow_pos (by norm_num) k
  set k : Int := (bitLength num : Int) - (bitLength den : Int) with hk
  -- 2 ^ (k - 1) < num / den < 2 ^ (k + 1)
  have hlow : (2 : ℚ) ^ (k - 1) < (num : ℚ) / den := by
    rw [lt_div_iff₀ hdenq]
    calc (2 : ℚ) ^ (k - 1) * den < (2 : ℚ) ^ (k - 1) * (2 : ℚ) ^ (bitLength den : Int) :=
          mul_lt_mul_of_pos_left qd2 (two_pos _)
      _ = (2 : ℚ) ^ ((bitLength num : Int) - 1) := by
          rw [← zpow_add₀ (by norm_num : (2 : ℚ) ≠ 0)]
          congr 1
          omega
      _ ≤ num := qn1
  have hhigh : (num : ℚ) / den < (2 : ℚ) ^ (k + 1) := by
    rw [div_lt_iff₀ hdenq]
    calc (num : ℚ) < (2 : ℚ) ^ (bitLength num : Int) := qn2
      _ = (2 : ℚ) ^ (k + 1) * (2 : ℚ) ^ ((bitLength den : Int) - 1) := by
          rw [← zpow_add₀ (by norm_num : (2 : ℚ) ≠ 0)]
          congr 1
          omega
      _ ≤ (2 : ℚ) ^ (k + 1) * den := mul_le_mul_of_nonneg_left qd1 (le_of_lt (two_pos _))
  -- the test of `floorLog2` compares `num / den` with `2 ^ k`
  have htest : den * 2 ^ k.toNat ≤ num * 2 ^ (-k).toNat ↔ (2 : ℚ) ^ k ≤ (num : ℚ) / den := by
    rw [two_zpow_split k, le_div_iff₀ hdenq, div_mul_eq_mul_div,
      div_le_iff₀ (by positivity : (0 : ℚ) < 2 ^ (-k).toNat)]
    constructor
    · intro h
      have : ((den * 2 ^ k.toNat : Nat) : ℚ) ≤ ((num * 2 ^ (-k).toNat : Nat) : ℚ) := by
        exact_mod_cast h
      push_cast at this
      linarith
    · intro h
      have : ((den * 2 ^ k.toNat : Nat) : ℚ) ≤ ((num * 2 ^ (-k).toNat : Nat) : ℚ) := by
        push_cast
        linarith
      exact_mod_cast this
  unfold floorLog2
  simp only [← hk]
  by_cases ht : den * 2 ^ k.toNat ≤ num * 2 ^ (-k).toNat
  · rw [if_pos ht]
    exact ⟨htest.mp ht, hhigh⟩
  · rw [if_neg ht]
    refine ⟨le_of_lt hlow, ?_⟩
    have : ¬ (2 : ℚ) ^ k ≤ (num : ℚ) / den := fun h => ht (htest.mpr h)
    rw [sub_add_cancel]
    exact lt_of_not_le this

theorem roundHalfEven_spec (num den : Nat) (hden : 0 < den) :
    |((roundHalfEven num den : Nat) : ℚ) - (num : ℚ) / den| ≤ 1 / 2 := by
  have hdenq : (0 : ℚ) < den := by exact_mod_cast hden
  have hdiv : (num : ℚ) = (den : ℚ) * ((num / den : Nat) : ℚ) + ((num % den : Nat) : ℚ) := by
    exact_mod_cast (Nat.div_add_mod num den).symm
  have hmod : num % den < den := Nat.mod_lt _ hden
  have hmodq : ((num % den : Nat) : ℚ) < den := by exact_mod_cast hmod
  have hmod0 : (0 : ℚ) ≤ ((num % den : Nat) : ℚ) := by positivity
  have hq : (num : ℚ) / den = ((num / den : Nat) : ℚ) + ((num % den : Nat) : ℚ) / den := by
    rw [eq_comm, ← sub_eq_zero]
    field_simp
    linarith
  have down : 2 * (num % den) ≤ den →
      |((num / den : Nat) : ℚ) - (num : ℚ) / den| ≤ 1 / 2 := by
    intro h
    have hh : (2 : ℚ) * ((num % den : Nat) : ℚ) ≤ den := by exact_mod_cast h
    rw [hq, abs_le]
    have h1 : ((num % den : Nat) : ℚ) / den ≤ 1 / 2 := by
      rw [div_le_iff₀ hdenq]
      linarith
    have h2 : (0 : ℚ) ≤ ((num % den : Nat) : ℚ) / den := div_nonneg hmod0 (le_of_lt hdenq)
    constructor <;> linarith
  have up : den ≤ 2 * (num % den) →
      |((num / den + 1 : Nat) : ℚ) - (num : ℚ) / den| ≤ 1 / 2 := by
    intro h
    have hh : (den : ℚ) ≤ (2 : ℚ) * ((num % den : Nat) : ℚ) := by exact_mod_cast h
    rw [hq, abs_le]
    have h1 : 1 / 2 ≤ ((num % den : Nat) : ℚ) / den := by
      rw [le_div_iff₀ hdenq]
      linarith
    have h2 : ((num % den : Nat) : ℚ) / den < 1 := by
      rw [div_lt_iff₀ hdenq]
      linarith
    push_cast
    constructor <;> linarith
  unfold roundHalfEven
  simp only
  split_ifs with h1 h2 h3
  · exact down (by omega)
  · exact up (by omega)
  · exact down (by omega)
  · exact up (by omega)

theorem f64Round_spec (neg : Bool) (num den : Nat) (hnum : 0 < num) (hden : 0 < den)
    (hlo : (2 : ℚ) ^ (-1022 : Int) ≤ (num : ℚ) / den)
    (hhi : (num : ℚ) / den < (2 : ℚ) ^ (1023 : Int)) :
    ∃ q, (f64Round neg num den).toRat = some q ∧
      |q - (if neg then -1 else 1) * ((num : ℚ) / den)| ≤ (num : ℚ) / den / 2 ^ 53 := by
  obtain ⟨hE1, hE2⟩ := floorLog2_spec num den hnum hden
  set E : Int := floorLog2 num den with hE
  have one_lt : (1 : ℚ) < 2 := by norm_num
  have hElo : -1022 ≤ E := by
    have := lt_of_le_of_lt hlo hE2
    have := (zpow_lt_zpow_iff_right₀ one_lt).mp this
    omega
  have hEhi : E ≤ 1022 := by
    have := lt_of_le_of_lt hE1 hhi
    have := (zpow_lt_zpow_iff_right₀ one_lt).mp this
    omega
  have hp : max (E - 52) (-1074) = E - 52 := max_eq_left (by omega)
  have two_pos : ∀ k : Int, (0 : ℚ) < (2 : ℚ) ^ k := fun k => zpow_pos (by norm_num) k
  have hdenq : (0 : ℚ) < den := by exact_mod_cast hden
  set p : Int := E - 52 with hpdef
  set A : Nat := num * 2 ^ (-p).toNat with hA
  set B : Nat := den * 2 ^ p.toNat with hB
  have hBpos : 0 < B := Nat.mul_pos hden (pow_pos (by norm_num) _)
  have hAB : (A : ℚ) / B = (num : ℚ) / den / (2 : ℚ) ^ p := by
    rw [two_zpow_split p, hA, hB]
    push_cast
    field_simp
  have hround := roundHalfEven_spec A B hBpos
  set m : Nat := roundHalfEven A B with hm
  have hval : |(m : ℚ) * (2 : ℚ) ^ p - (num : ℚ) / den| ≤ (num : ℚ) / den / 2 ^ 53 := by
    have h1 : (m : ℚ) * (2 : ℚ) ^ p - (num : ℚ) / den =
        (2 : ℚ) ^ p * ((m : ℚ) - (A : ℚ) / B) := by
      rw [hAB]
      field_simp
      ring
    rw [h1, abs_mul, abs_of_pos (two_pos p)]
    have h2 : (2 : ℚ) ^ p * |(m : ℚ) - (A : ℚ) / B| ≤ (2 : ℚ) ^ p * (1 / 2) :=
      mul_le_mul_of_nonneg_left hround (le_of_lt (two_pos p))
    have h3 : (2 : ℚ) ^ p * (1 / 2) = (2 : ℚ) ^ E / 2 ^ 53 := by
      have : (2 : ℚ) ^ E = (2 : ℚ) ^ p * (2 : ℚ) ^ (52 : Int) := by
        rw [← zpow_add₀ (by norm_num : (2 : ℚ) ≠ 0)]
        congr 1
        omega
      rw [this]
      norm_num
      ring
    have h4 : (2 : ℚ) ^ E / 2 ^ 53 ≤ (num : ℚ) / den / 2 ^ 53 :=
      div_le_div_of_nonneg_right hE1 (by positivity)
    linarith
  have hsign : ∀ (v x : ℚ), |v - x| ≤ (num : ℚ) / den / 2 ^ 53 →
      |(if neg then -1 else 1) * v - (if neg then -1 else 1) * x| ≤
        (num : ℚ) / den / 2 ^ 53 := by
    intro v x h
    cases neg
    · simpa using h
    · simp only [if_true]
      rw [show (-1 : ℚ) * v - -1 * x = -(v - x) by ring, abs_neg]
      exact h
  have hnum0 : num ≠ 0 := by omega
  unfold f64Round
  simp only [hnum0, if_false, ← hE, hp, ← hpdef, ← hA, ← hB, ← hm]
  by_cases h53 : m = 2 ^ 53
  · simp only [h53, if_true]
    have hp1 : ¬ (971 : Int) < p + 1 := by omega
    rw [if_neg hp1]
    refine ⟨_, rfl, ?_⟩
    have : ((2 ^ 52 : Nat) : ℚ) * (2 : ℚ) ^ (p + 1) = (m : ℚ) * (2 : ℚ) ^ p := by
      rw [h53, zpow_add₀ (by norm_num : (2 : ℚ) ≠ 0)]
      push_cast
      ring
    rw [mul_assoc, this]
    exact hsign _ _ hval
  · simp only [h53, if_false]
    have hp1 : ¬ (971 : Int) < p := by omega
    rw [if_neg hp1]
    refine ⟨_, rfl, ?_⟩
    rw [mul_assoc]
    exact hsign _ _ hval

theorem f64DivNat_spec (neg : Bool) (mant : Nat) (exp : Int) (d : Nat) (hmant : 0 < mant)
    (hd : 0 < d)
    (hlo : (2 : ℚ) ^ (-1022 : Int) ≤ (mant : ℚ) * (2 : ℚ) ^ exp / d)
    (hhi : (mant : ℚ) * (2 : ℚ) ^ exp / d < (2 : ℚ) ^ (1023 : Int)) :
    ∃ q, (f64DivNat (.fin neg mant exp) d).toRat = some q ∧
      |q - (if neg then -1 else 1) * ((mant : ℚ) * (2 : ℚ) ^ exp / d)| ≤
        (mant : ℚ) * (2 : ℚ) ^ exp / d / 2 ^ 53 := by
  have hd0 : (0 : ℚ) < d := by exact_mod_cast hd
  have key : ((mant * 2 ^ exp.toNat : Nat) : ℚ) / ((d * 2 ^ (-exp).toNat : Nat) : ℚ) =
      (mant : ℚ) * (2 : ℚ) ^ exp / d := by
    rw [two_zpow_split exp]
    push_cast
    field_simp
    ring
  have := f64Round_spec neg (mant * 2 ^ exp.toNat) (d * 2 ^ (-exp).toNat)
    (Nat.mul_pos hmant (pow_pos (by norm_num) _))
    (Nat.mul_pos hd (pow_pos (by norm_num) _))
    (by rw [key]; exact hlo) (by rw [key]; exact hhi)
  rw [key] at this
  exact this

theorem f64Div1000_accurate (neg : Bool) (mant : Nat) (exp : Int) (raw : Nat)
    (hraw : (mant : ℚ) * (2 : ℚ) ^ exp = raw) (hlt : raw < 2 ^ 53) :
    ∃ q, (f64DivNat (.fin neg mant exp) 1000).toRat = some q ∧
      |q - (if neg then -1 else 1) * ((raw : ℚ) / 1000)| ≤ (raw : ℚ) / 1000 / 2 ^ 53 := by
  have two_pos : (0 : ℚ) < (2 : ℚ) ^ exp := zpow_pos (by norm_num) exp
  by_cases hm : mant = 0
  · subst hm
    have hraw0 : (raw : ℚ) = 0 := by rw [← hraw]; simp
    refine ⟨_, by simp [f64DivNat, f64Round]; rfl, ?_⟩
    simp [hraw0]
  · have hmant : 0 < mant := Nat.pos_of_ne_zero hm
    have hrawpos : (1 : ℚ) ≤ raw := by
      have h0 : (0 : ℚ) < raw := by
        rw [← hraw]
        exact mul_pos (by exact_mod_cast hmant) two_pos
      have : 0 < raw := by exact_mod_cast h0
      exact_mod_cast this
    have hrawlt : (raw : ℚ) < 2 ^ 53 := by exact_mod_cast hlt
    have := f64DivNat_spec neg mant exp 1000 hmant (by norm_num)
      (by
        rw [hraw]
        have h1 : (2 : ℚ) ^ (-1022 : Int) ≤ (2 : ℚ) ^ (-10 : Int) :=
          zpow_le_zpow_right₀ (by norm_num) (by norm_num)
        have h2 : (2 : ℚ) ^ (-10 : Int) ≤ 1 / 1000 := by norm_num [zpow_neg]
        have h3 : (1 : ℚ) / 1000 ≤ (raw : ℚ) / ((1000 : Nat) : ℚ) := by
          push_cast
          exact div_le_div_of_nonneg_right hrawpos (by norm_num)
        linarith)
      (by
        rw [hraw]
        have h1 : (raw : ℚ) / ((1000 : Nat) : ℚ) < 2 ^ 53 := by
          push_cast
          have : (raw : ℚ) / 1000 ≤ raw := by
            rw [div_le_iff₀ (by norm_num)]
            linarith
          linarith
        have h2 : (2 : ℚ) ^ 53 ≤ (2 : ℚ) ^ (1023 : Int) := by
          have : ((2 : ℚ) ^ 53) = (2 : ℚ) ^ (53 : Int) := by norm_cast
          rw [this]
          exact zpow_le_zpow_right₀ (by norm_num) (by norm_num)
        linarith)
    rw [hraw] at this
    simpa using this

/-! ## The listing step -/

theorem goSlice_dropLast {α : Type} (l : List α) (h : l ≠ []) :
    goSlice l 0 ((l.length : Int) - 1) = some l.dropLast := by
  have hpos : 0 < l.length := List.length_pos.mpr h
  have h1 : (0 : Int) ≤ (l.length : Int) - 1 := by omega
  have h2 : (l.length : Int) - 1 ≤ (l.length : Int) := by omega
  have h3 : ((l.length : Int) - 1).toNat = l.length - 1 := by omega
  simp [goSlice, h1, h2, h3, List.dropLast_eq_take]

theorem stringsSplit_spec (sep : UInt8) (c : Bytes) :
    ∃ ids t, stringsSplit sep c = ids ++ [t] ∧ sep ∉ t ∧ (∀ i ∈ ids, sep ∉ i) ∧
      ids.flatMap (fun i => i ++ [sep]) ++ t = c ∧ ids.length = c.count sep := by
  induction c with
  | nil => exact ⟨[], [], by simp [stringsSplit]⟩
  | cons x cs ih =>
    obtain ⟨ids, t, hs, ht, hids, hj, hl⟩ := ih
    by_cases hx : x = sep
    · subst hx
      refine ⟨[] :: ids, t, by simp [stringsSplit, hs], ht, ?_, ?_, ?_⟩
      · intro i hi
        rcases List.mem_cons.mp hi with rfl | hi
        · simp
        · exact hids i hi
      · simpa [List.flatMap] using hj
      · simp [hl]
    · cases ids with
      | nil =>
        refine ⟨[], x :: t, by simp [stringsSplit, hs, hx], ?_, by simp, ?_, ?_⟩
        · simp [ht, Ne.symm hx]
        · simpa using hj
        · simp at hl
          simp [List.count_cons, hx, ← hl]
      | cons i is =>
        refine ⟨(x :: i) :: is, t, by simp [stringsSplit, hs, hx], ht, ?_, ?_, ?_⟩
        · intro j hj
          rcases List.mem_cons.mp hj with rfl | hj
          · have := hids i (List.mem_cons_self _ _)
            simp [this, Ne.symm hx]
          · exact hids j (List.mem_cons_of_mem _ hj)
        · simpa [List.flatMap] using hj
        · simpa [List.count_cons, hx] using hl

theorem listSensors_of_split (data : Bytes) (ids : List Bytes) (t : Bytes)
    (h : stringsSplit newline data = ids ++ [t]) : listSensors data = some ids := by
  have hne : ids ++ [t] ≠ [] := by simp
  simp only [listSensors, h]
  rw [if_pos (by simp), goSlice_dropLast _ hne]
  simp

theorem get?_split {α : Type} {l : List α} {i : Nat} {a : α} (h : l[i]? = some a) :
    ∃ pre post, l = pre ++ a :: post ∧ pre.length = i ∧ ∀ b, l.set i b = pre ++ b :: post := by
  induction l generalizing i with
  | nil => simp at h
  | cons x xs ih =>
    cases i with
    | zero =>
      simp at h
      subst h
      exact ⟨[], xs, by simp⟩
    | succ j =>
      simp at h
      obtain ⟨pre, post, h1, h2, h3⟩ := ih (i := j) h
      refine ⟨x :: pre, post, by simp [h1], by simp [h2], ?_⟩
      intro b
      simp [h3]

theorem inv_init (env : Env) : Inv env State.init :=
  ⟨by simp [State.init, pendingCount], by simp [State.init], by simp [State.init],
    by simp [MainOk, State.init], by simp [State.init]⟩

theorem discovered_of_read {env : Env} {data : Bytes} {sensors : List Bytes}
    (h1 : env.readFile (listingPath env) = some data) (h2 : listSensors data = some sensors) :
    discovered env = sensors := by
  simp [discovered, h1, h2]

theorem inv_stepMain {env : Env} {s s1 : State} (hinv : Inv env s)
    (h : stepMain env s = some s1) : Inv env s1 := by
  obtain ⟨hc, hw, hp, hm, hx⟩ := hinv
  unfold stepMain at h
  split at h
  · -- start
    rename_i hmain
    simp only [MainOk, hmain] at hm
    split at h
    · rename_i hread
      cases h
      refine ⟨hc, hw, hp, ?_, by simpa [hmain] using hx⟩
      simp [MainOk, hm.1, hm.2, hread, discovered]
    · rename_i data hread
      split at h
      · rename_i hlist
        cases h
        refine ⟨hc, hw, hp, ?_, fun _ => Or.inl rfl⟩
        simp [MainOk, hm.1, hread, hlist]
      · rename_i sensors hlist
        cases h
        refine ⟨hc, hw, hp, ?_, by simpa [hmain] using hx⟩
        simp [MainOk, hm.1, hread, discovered_of_read hread hlist]
  · -- ranging []
    rename_i hmain
    simp only [MainOk, hmain] at hm
    cases h
    refine ⟨hc, hw, hp, ?_, by simpa [hmain] using hx⟩
    simp [MainOk, hm.1]
    simpa using hm.2
  · -- ranging (sensor :: rest)
    rename_i sensor rest hmain
    simp only [MainOk, hmain] at hm
    cases h
    refine ⟨?_, ?_, ?_, ?_, ?_⟩
    · simp [pendingCount, List.countP_append, WorkerPc.pending] at hc ⊢
      omega
    · intro w hmem
      rcases List.mem_append.mp hmem with hmem | hmem
      · exact hw w hmem
      · simp at hmem
        subst hmem
        simp [WorkerOk]
    · simpa [List.flatMap_append, sentBy] using hp
    · simp [MainOk, hm.1]
      simpa using hm.2
    · intro hcr
      rcases hx hcr with h1 | ⟨x, h1⟩
      · simp [hmain] at h1
      · exact Or.inr ⟨x, List.mem_append_left _ h1⟩
  · -- waiting
    rename_i hmain
    simp only [MainOk, hmain] at hm
    split at h
    · rename_i hzero
      cases h
      refine ⟨hc, hw, hp, ?_, by simpa [hmain] using hx⟩
      refine ⟨hm.1, hm.2, ?_⟩
      have := hc
      rw [hzero] at this
      exact_mod_cast this.symm
    · cases h
  · -- panicking
    rename_i hmain
    split at h
    · cases h
      exact ⟨hc, hw, hp, by simpa [MainOk, hmain] using hm, fun _ => Or.inl hmain⟩
    · cases h
  · cases h

theorem mainOk_of_worker_move {env : Env} {s s1 : State} (hm : MainOk env s)
    (hmain : s1.main = s.main) (hne : s.workers ≠ [])
    (hmap : s1.workers.map Prod.fst = s.workers.map Prod.fst)
    (hpend : pendingCount s.workers = 0 → pendingCount s1.workers = 0) : MainOk env s1 := by
  have hne1 : s1.workers ≠ [] := by
    intro h0
    rw [h0] at hmap
    simp at hmap
    exact hne hmap
  have hmapne : s.workers.map Prod.fst ≠ [] := by simpa using hne
  unfold MainOk at hm ⊢
  rw [hmain]
  cases hs : s.main with
  | start => rw [hs] at hm; exact absurd hm.1 hne
  | ranging rest => rw [hs] at hm; simpa [hmap] using hm
  | waiting =>
    rw [hs] at hm
    refine ⟨fun hnone => ?_, by simpa [hmap] using hm.2⟩
    have : discovered env = [] := by simp [discovered, hnone]
    rw [hm.2] at this
    exact absurd this hmapne
  | panicking => rw [hs] at hm; exact absurd hm.1 hne
  | returned =>
    rw [hs] at hm
    refine ⟨fun hnone => ?_, by simpa [hmap] using hm.2.1, hpend hm.2.2⟩
    have : discovered env = [] := by simp [discovered, hnone]
    rw [hm.2.1] at this
    exact absurd this hmapne

theorem pendingCount_mid (pre post : List (Bytes × WorkerPc)) (w : Bytes × WorkerPc) :
    pendingCount (pre ++ w :: post) =
      pendingCount pre + pendingCount post + (if w.2.pending = true then 1 else 0) := by
  simp only [pendingCount, List.countP_append, List.countP_cons]
  omega

theorem sentBy_returning_of_not_emit {env : Env} {sensor : Bytes}
    (h : ∀ m, sensorOutcome env sensor ≠ .emit m) : sentBy env (sensor, .returning) = [] := by
  simp only [sentBy, emitted]
  cases ho : sensorOutcome env sensor with
  | emit m => exact absurd ho (h m)
  | _ => simp

theorem inv_stepWorker {env : Env} {s s1 : State} {i : Nat} (hinv : Inv env s)
    (hcr : s.crashed = false) (h : stepWorker env s i = some s1) : Inv env s1 := by
  obtain ⟨hc, hw, hp, hm, -⟩ := hinv
  unfold stepWorker at h
  split at h
  · cases h
  · rename_i sensor pc hget
    obtain ⟨pre, post, hws, -, hset⟩ := get?_split hget
    have hne : s.workers ≠ [] := by simp [hws]
    have hwi : WorkerOk env (sensor, pc) := hw _ (by simp [hws])
    have hwpre : ∀ w ∈ pre, WorkerOk env w := fun w hmem => hw w (by simp [hws, hmem])
    have hwpost : ∀ w ∈ post, WorkerOk env w := fun w hmem => hw w (by simp [hws, hmem])
    have hwall : ∀ pc1, WorkerOk env (sensor, pc1) →
        ∀ w ∈ pre ++ (sensor, pc1) :: post, WorkerOk env w := by
      intro pc1 h1 w hmem
      rcases List.mem_append.mp hmem with hmem | hmem
      · exact hwpre w hmem
      · rcases List.mem_cons.mp hmem with rfl | hmem
        · exact h1
        · exact hwpost w hmem
    rw [hws] at hc hp
    simp only [hset] at h
    cases pc with
    | launched =>
      cases h
      refine ⟨?_, hwall _ (by simp [WorkerOk]), ?_,
        mainOk_of_worker_move hm rfl hne (by simp [hws]) ?_, by simp [hcr]⟩
      · simpa [pendingCount, List.countP_append, List.countP_cons, WorkerPc.pending] using hc
      · simpa [List.flatMap_append, sentBy] using hp
      · simp [hws, pendingCount, List.countP_append, List.countP_cons, WorkerPc.pending]
    | fileRead sensorData =>
      cases h
      have hdata : workerBody env sensor sensorData = sensorOutcome env sensor := by
        simp only [WorkerOk] at hwi
        rw [hwi, sensorOutcome]
      rw [hdata]
      have hpend : ((sensorOutcome env sensor).next).pending = true := by
        cases sensorOutcome env sensor <;> rfl
      have hok : WorkerOk env (sensor, (sensorOutcome env sensor).next) := by
        cases ho : sensorOutcome env sensor <;> simp [Outcome.next, WorkerOk, ho]
      have hsent : sentBy env (sensor, (sensorOutcome env sensor).next) = [] := by
        cases ho : sensorOutcome env sensor with
        | readError =>
          exact sentBy_returning_of_not_emit (by simp [ho])
        | parseError =>
          exact sentBy_returning_of_not_emit (by simp [ho])
        | panic => simp [Outcome.next, sentBy]
        | emit m => simp [Outcome.next, sentBy]
      refine ⟨?_, hwall _ hok, ?_,
        mainOk_of_worker_move hm rfl hne (by simp [hws]) ?_, by simp [hcr]⟩
      · have h0 : (WorkerPc.fileRead sensorData).pending = true := rfl
        rw [pendingCount_mid] at hc ⊢
        simpa only [hpend, h0] using hc
      · have h2 : sentBy env (sensor, .fileRead sensorData) = [] := by simp [sentBy]
        simpa [List.flatMap_append, hsent, h2] using hp
      · simp [hws, pendingCount, List.countP_append, List.countP_cons, WorkerPc.pending]
    | sending m =>
      cases h
      have ho : sensorOutcome env sensor = .emit m := by simpa [WorkerOk] using hwi
      refine ⟨?_, hwall _ (by simp [WorkerOk, ho]), ?_,
        mainOk_of_worker_move hm rfl hne (by simp [hws]) ?_, by simp [hcr]⟩
      · simpa [pendingCount, List.countP_append, List.countP_cons, WorkerPc.pending] using hc
      · have h1 : sentBy env (sensor, .returning) = [m] := by simp [sentBy, emitted, ho]
        have h2 : sentBy env (sensor, .sending m) = [] := by simp [sentBy]
        simp only [List.flatMap_append, List.flatMap_cons, h1, h2, List.nil_append] at hp ⊢
        exact (hp.append_right [m]).trans (by
          rw [List.append_assoc]
          exact List.Perm.append_left _ List.perm_append_comm)
      · simp [hws, pendingCount, List.countP_append, List.countP_cons, WorkerPc.pending]
    | returning =>
      cases h
      have ho : sensorOutcome env sensor ≠ .panic := by simpa [WorkerOk] using hwi
      refine ⟨?_, hwall _ (by simp [WorkerOk, ho]), ?_,
        mainOk_of_worker_move hm rfl hne (by simp [hws]) ?_, by simp [hcr]⟩
      · simp [pendingCount, List.countP_append, List.countP_cons, WorkerPc.pending] at hc ⊢
        omega
      · simpa [List.flatMap_append, sentBy] using hp
      · simp [hws, pendingCount, List.countP_append, List.countP_cons, WorkerPc.pending]
    | panicking =>
      cases h
      have ho : sensorOutcome env sensor = .panic := by simpa [WorkerOk] using hwi
      refine ⟨?_, hwall _ (by simp [WorkerOk, ho]), ?_,
        mainOk_of_worker_move hm rfl hne (by simp [hws]) ?_, by simp [hcr]⟩
      · simp [pendingCount, List.countP_append, List.countP_cons, WorkerPc.pending] at hc ⊢
        omega
      · simpa [List.flatMap_append, sentBy] using hp
      · simp [hws, pendingCount, List.countP_append, List.countP_cons, WorkerPc.pending]
    | finished => cases h
    | aborting =>
      cases h
      refine ⟨by simpa [hws] using hc, hw, by simpa [hws] using hp, ?_, ?_⟩
      · exact mainOk_of_worker_move hm rfl hne rfl (fun h => h)
      · intro _
        exact Or.inr ⟨sensor, by simp [hws]⟩

theorem inv_step {env : Env} {s s1 : State} {t : Thread} (hinv : Inv env s)
    (h : step env s t = some s1) : Inv env s1 := by
  unfold step at h
  split at h
  · cases h
  · rename_i hcr
    cases t with
    | main => exact inv_stepMain hinv h
    | worker i => exact inv_stepWorker hinv (by simpa using hcr) h

theorem inv_run {env : Env} (sched : List Thread) {s s1 : State} (hinv : Inv env s)
    (h : run env sched s = some s1) : Inv env s1 := by
  induction sched generalizing s with
  | nil =>
    simp only [run, Option.some.injEq] at h
    exact h ▸ hinv
  | cons t sched ih =>
    simp only [run] at h
    split at h
    · cases h
    · rename_i s2 hstep
      exact ih (inv_step hinv hstep) h

theorem inv_of_reachable {env : Env} {s : State} (h : Reachable env s) : Inv env s := by
  obtain ⟨sched, hrun⟩ := h
  exact inv_run sched (inv_init env) hrun

theorem stepsLeft_stepMain {env : Env} {s s1 : State} (hcr : s.crashed = false)
    (h : stepMain env s = some s1) :
    stepsLeft env s1 < stepsLeft env s := by
  unfold stepMain at h
  split at h
  · rename_i hmain
    split at h
    · cases h
      simp [stepsLeft, hmain, mainRemaining]
    · rename_i data hread
      split at h
      · cases h
        simp [stepsLeft, hmain, mainRemaining]
      · rename_i sensors hlist
        cases h
        simp [stepsLeft, hmain, mainRemaining, discovered_of_read hread hlist]
  · rename_i hmain
    cases h
    simp [stepsLeft, hmain, mainRemaining]
  · rename_i sensor rest hmain
    cases h
    simp [stepsLeft, hmain, mainRemaining, WorkerPc.remaining]
    omega
  · rename_i hmain
    split at h
    · cases h
      simp [stepsLeft, hmain, mainRemaining]
    · cases h
  · rename_i hmain
    split at h
    · cases h
      simp [stepsLeft, hmain, mainRemaining, hcr]
    · cases h
  · cases h

theorem stepsLeft_stepWorker {env : Env} {s s1 : State} {i : Nat} (hcr : s.crashed = false)
    (h : stepWorker env s i = some s1) : stepsLeft env s1 < stepsLeft env s := by
  unfold stepWorker at h
  split at h
  · cases h
  · rename_i sensor pc hget
    obtain ⟨pre, post, hws, -, hset⟩ := get?_split hget
    simp only [hset] at h
    cases pc with
    | launched =>
      cases h
      simp [stepsLeft, hws, WorkerPc.remaining]
    | fileRead sensorData =>
      cases h
      cases workerBody env sensor sensorData <;>
        simp [stepsLeft, hws, WorkerPc.remaining, Outcome.next]
    | sending m =>
      cases h
      simp [stepsLeft, hws, WorkerPc.remaining]
    | returning =>
      cases h
      simp [stepsLeft, hws, WorkerPc.remaining]
    | panicking =>
      cases h
      simp [stepsLeft, hws, WorkerPc.remaining]
    | finished => cases h
    | aborting =>
      cases h
      simp [stepsLeft, hcr]

theorem stepsLeft_step {env : Env} {s s1 : State} {t : Thread} (h : step env s t = some s1) :
    stepsLeft env s1 < stepsLeft env s := by
  unfold step at h
  split at h
  · cases h
  · rename_i hcr
    cases t with
    | main => exact stepsLeft_stepMain (by simpa using hcr) h
    | worker i => exact stepsLeft_stepWorker (by simpa using hcr) h

theorem stepsLeft_run {env : Env} (sched : List Thread) {s s1 : State}
    (h : run env sched s = some s1) : stepsLeft env s1 + sched.length ≤ stepsLeft env s := by
  induction sched generalizing s with
  | nil =>
    simp only [run, Option.some.injEq] at h
    simp [h]
  | cons t sched ih =>
    simp only [run] at h
    split at h
    · cases h
    · rename_i s2 hstep
      have h1 := ih h
      have h2 := stepsLeft_step hstep
      simp only [List.length_cons]
      omega

theorem run_append {env : Env} (a b : List Thread) (s : State) :
    run env (a ++ b) s = (run env a s).bind (run env b) := by
  induction a generalizing s with
  | nil => simp [run]
  | cons t a ih =>
    simp only [List.cons_append, run]
    cases step env s t with
    | none => simp
    | some s1 => simpa using ih s1

theorem exists_final (env : Env) (s : State) :
    ∃ sched s1, run env sched s = some s1 ∧ Final env s1 := by
  generalize hn : stepsLeft env s = n
  induction n using Nat.strong_induction_on generalizing s with
  | _ n ih =>
    by_cases hf : Final env s
    · exact ⟨[], s, rfl, hf⟩
    · simp only [Final, not_forall] at hf
      obtain ⟨t, ht⟩ := hf
      obtain ⟨s1, hs1⟩ := Option.ne_none_iff_exists'.mp ht
      have hlt := stepsLeft_step hs1
      obtain ⟨sched, s2, hrun, hfin⟩ := ih (stepsLeft env s1) (hn ▸ hlt) s1 rfl
      exact ⟨t :: sched, s2, by simp [run, hs1, hrun], hfin⟩

theorem exists_pending {ws : List (Bytes × WorkerPc)} (h : pendingCount ws ≠ 0) :
    ∃ (i : Nat) (sensor : Bytes) (pc : WorkerPc),
      ws[i]? = some (sensor, pc) ∧ pc.pending = true := by
  have hpos : 0 < ws.countP fun w => w.2.pending := Nat.pos_of_ne_zero h
  obtain ⟨w, hmem, hw⟩ := List.countP_pos_iff.mp hpos
  obtain ⟨i, hi⟩ := List.getElem?_of_mem hmem
  exact ⟨i, w.1, w.2, by simpa using hi, hw⟩

theorem stepWorker_ne_none {env : Env} {s : State} {i : Nat} (sensor : Bytes) (pc : WorkerPc)
    (hget : s.workers[i]? = some (sensor, pc)) (hpc : pc ≠ .finished) :
    stepWorker env s i ≠ none := by
  unfold stepWorker
  rw [hget]
  cases pc <;> simp at hpc ⊢

theorem final_cases {env : Env} {s : State} (hinv : Inv env s) (hf : Final env s) :
    s.crashed = true ∨
      (s.main = .returned ∧ ∀ w ∈ s.workers, w.2 = WorkerPc.finished) := by
  by_cases hcr : s.crashed = true
  · exact Or.inl hcr
  · right
    have hcr1 : s.crashed = false := by simpa using hcr
    have hm : stepMain env s = none := by
      have := hf .main
      simpa [step, hcr1] using this
    have hwk : ∀ i, stepWorker env s i = none := by
      intro i
      have := hf (.worker i)
      simpa [step, hcr1] using this
    have hall : ∀ w ∈ s.workers, w.2 = WorkerPc.finished := by
      intro w hmem
      obtain ⟨i, hi⟩ := List.getElem?_of_mem hmem
      by_contra hne
      exact stepWorker_ne_none w.1 w.2 (by simpa using hi) hne (hwk i)
    have hzero : pendingCount s.workers = 0 := by
      by_contra hne
      obtain ⟨i, sensor, pc, hget, hp⟩ := exists_pending hne
      have hmem : (sensor, pc) ∈ s.workers := List.mem_iff_getElem?.mpr ⟨i, hget⟩
      have := hall _ hmem
      simp only at this
      rw [this] at hp
      simp [WorkerPc.pending] at hp
    refine ⟨?_, hall⟩
    have hc := hinv.counter_eq
    rw [hzero] at hc
    cases hmain : s.main with
    | start =>
      simp only [stepMain, hmain] at hm
      split at hm
      · cases hm
      · split at hm <;> cases hm
    | ranging rest => cases rest <;> simp [stepMain, hmain] at hm
    | waiting => simp [stepMain, hmain, hc] at hm
    | panicking => simp [stepMain, hmain, hc] at hm
    | returned => rfl

/-! ## Consequences of the invariant -/

theorem listSensors_total (data : Bytes) : ∃ ids, listSensors data = some ids := by
  obtain ⟨ids, t, hs, -⟩ := stringsSplit_spec newline data
  exact ⟨ids, listSensors_of_split data ids t hs⟩

theorem workers_discovered {env : Env} {s : State} (hinv : Inv env s) :
    ∃ rest, discovered env = s.workers.map Prod.fst ++ rest := by
  have hm := hinv.main_ok
  unfold MainOk at hm
  cases hs : s.main with
  | start => rw [hs] at hm; exact ⟨discovered env, by simp [hm.1]⟩
  | ranging rest => rw [hs] at hm; exact ⟨rest, hm.2⟩
  | waiting => rw [hs] at hm; exact ⟨[], by simpa using hm.2⟩
  | panicking => rw [hs] at hm; exact ⟨discovered env, by simp [hm.1]⟩
  | returned => rw [hs] at hm; exact ⟨[], by simpa using hm.2.1⟩

theorem sensor_mem_discovered {env : Env} {s : State} (hinv : Inv env s)
    {w : Bytes × WorkerPc} (hw : w ∈ s.workers) : w.1 ∈ discovered env := by
  obtain ⟨rest, hrest⟩ := workers_discovered hinv
  rw [hrest]
  exact List.mem_append_left _ (List.mem_map_of_mem _ hw)

theorem not_crashed_of_no_panic {env : Env} {s : State} (hinv : Inv env s)
    (hpanic : ∀ sensor ∈ discovered env, sensorOutcome env sensor ≠ .panic) :
    s.crashed = false := by
  by_contra hcr
  have hcr1 : s.crashed = true := by simpa using hcr
  rcases hinv.crashed_ok hcr1 with hmain | ⟨sensor, hmem⟩
  · have hm := hinv.main_ok
    simp only [MainOk, hmain] at hm
    obtain ⟨-, data, -, hnone⟩ := hm
    obtain ⟨ids, hids⟩ := listSensors_total data
    rw [hids] at hnone
    cases hnone
  · have hok := hinv.workers_ok _ hmem
    simp only [WorkerOk] at hok
    exact hpanic sensor (sensor_mem_discovered hinv hmem) hok

theorem returned_workers {env : Env} {s : State} (hinv : Inv env s)
    (hmain : s.main = .returned) :
    ∀ w ∈ s.workers, w.2 = WorkerPc.finished ∨ w.2 = WorkerPc.aborting := by
  have hm := hinv.main_ok
  simp only [MainOk, hmain] at hm
  intro w hw
  have hz := hm.2.2
  simp only [pendingCount, List.countP_eq_zero] at hz
  have := hz w hw
  cases hpc : w.2 <;> simp [hpc, WorkerPc.pending] at this ⊢

theorem sentBy_of_done {env : Env} {w : Bytes × WorkerPc} (hok : WorkerOk env w)
    (h : w.2 = WorkerPc.finished ∨ w.2 = WorkerPc.aborting) :
    sentBy env w = (emitted env w.1).toList := by
  rcases h with h | h
  · simp [sentBy, h]
  · simp only [WorkerOk, h] at hok
    simp [sentBy, h, emitted, hok]

theorem flatMap_toList_eq_filterMap {α β : Type} (f : α → Option β) (l : List α) :
    l.flatMap (fun a => (f a).toList) = l.filterMap f := by
  induction l with
  | nil => rfl
  | cons a l ih =>
    cases h : f a <;> simp [List.flatMap_cons, List.filterMap_cons, h, ih]

theorem sink_of_returned {env : Env} {s : State} (hinv : Inv env s)
    (hmain : s.main = .returned) : s.sink.Perm ((discovered env).filterMap (emitted env)) := by
  have hdone := returned_workers hinv hmain
  have hm := hinv.main_ok
  simp only [MainOk, hmain] at hm
  have h1 : s.workers.flatMap (sentBy env) =
      s.workers.flatMap (fun w => (emitted env w.1).toList) := by
    apply List.flatMap_congr
    intro w hw
    exact sentBy_of_done (hinv.workers_ok w hw) (hdone w hw)
  have h2 : s.workers.flatMap (fun w => (emitted env w.1).toList) =
      (s.workers.map Prod.fst).filterMap (emitted env) := by
    rw [← flatMap_toList_eq_filterMap, List.flatMap_map]
  rw [hm.2.1, ← h2, ← h1]
  exact hinv.sink_perm

theorem emitted_eq_some_iff (env : Env) (sensor : Bytes) (m : Metric) :
    emitted env sensor = some m ↔
      ∃ content t, env.readFile (temperaturePath env sensor) = some content ∧ content ≠ [] ∧
        env.parseFloat content.dropLast = some t ∧ utf8ValidString sensor = true ∧
        m = { desc := Temperature, valueType := .gauge, value := f64DivNat t 1000,
              labelValues := [sensor, sensor] } := by
  unfold emitted sensorOutcome workerBody
  cases hread : env.readFile (temperaturePath env sensor) with
  | none => simp
  | some content =>
    by_cases hc : content = []
    · subst hc
      simp [goSlice]
    · simp only [goSlice_dropLast content hc]
      cases hparse : env.parseFloat content.dropLast with
      | none => simp [hc, hparse]
      | some t =>
        by_cases hv : utf8ValidString sensor = true
        · simp [MustNewConstMetric, Temperature, hv, hc, hparse]
          exact eq_comm
        · simp [MustNewConstMetric, Temperature, hv, hc, hparse]

theorem sensorOutcome_panic_iff (env : Env) (sensor : Bytes) :
    sensorOutcome env sensor = .panic ↔
      env.readFile (temperaturePath env sensor) = some [] ∨
        ∃ content temperature,
          env.readFile (temperaturePath env sensor) = some content ∧ content ≠ [] ∧
            env.parseFloat content.dropLast = some temperature ∧
            utf8ValidString sensor = false := by
  unfold sensorOutcome workerBody
  cases hread : env.readFile (temperaturePath env sensor) with
  | none => simp
  | some content =>
    by_cases hc : content = []
    · subst hc
      simp [goSlice]
    · simp only [goSlice_dropLast content hc]
      cases hparse : env.parseFloat content.dropLast with
      | none => simp [hc, hparse]
      | some t =>
        by_cases hv : utf8ValidString sensor = true
        · simp [MustNewConstMetric, Temperature, hv, hc, hparse]
        · simp [MustNewConstMetric, Temperature, hv, hc, hparse]

theorem emitted_labels {env : Env} {sensor : Bytes} {m : Metric}
    (h : emitted env sensor = some m) :
    m.label "sensor_id" = some sensor ∧ m.label "sensor_name" = some sensor := by
  obtain ⟨content, t, -, -, -, -, hm⟩ := (emitted_eq_some_iff env sensor m).mp h
  subst hm
  constructor <;> simp [Metric.label, Temperature, List.lookup]

/-! ## The listing format -/

theorem stringsSplit_line (sep : UInt8) (line rest : Bytes) (h : sep ∉ line) :
    stringsSplit sep (line ++ sep :: rest) = line :: stringsSplit sep rest := by
  induction line with
  | nil => simp [stringsSplit]
  | cons x xs ih =>
    have hx : x ≠ sep := fun hx => h (by simp [hx])
    have hxs : sep ∉ xs := fun hxs => h (List.mem_cons_of_mem _ hxs)
    simp [stringsSplit, hx, ih hxs]

theorem stringsSplit_lines (sep : UInt8) (ids : List Bytes) (h : ∀ i ∈ ids, sep ∉ i) :
    stringsSplit sep (ids.flatMap fun i => i ++ [sep]) = ids ++ [[]] := by
  induction ids with
  | nil => simp [stringsSplit]
  | cons i is ih =>
    have h1 : sep ∉ i := h i (List.mem_cons_self _ _)
    have h2 : ∀ j ∈ is, sep ∉ j := fun j hj => h j (List.mem_cons_of_mem _ hj)
    simp only [List.flatMap_cons, List.append_assoc, List.singleton_append, List.cons_append]
    rw [stringsSplit_line sep i _ h1, List.nil_append, ih h2]

theorem empty_line_iff (ids : List Bytes) (t : Bytes) (hids : ∀ i ∈ ids, newline ∉ i)
    (ht : newline ∉ t) :
    [] ∈ ids ↔
      (∃ b, (ids.flatMap fun i => i ++ [newline]) ++ t = newline :: b) ∨
      (∃ a b, (ids.flatMap fun i => i ++ [newline]) ++ t = a ++ newline :: newline :: b) := by
  induction ids with
  | nil =>
    simp only [List.not_mem_nil, List.flatMap_nil, List.nil_append, false_iff, not_or,
      not_exists]
    refine ⟨fun b hb => ht (by simp [hb]), fun a b hb => ht (by simp [hb])⟩
  | cons i is ih =>
    have h1 : newline ∉ i := hids i (List.mem_cons_self _ _)
    have h2 : ∀ j ∈ is, newline ∉ j := fun j hj => hids j (List.mem_cons_of_mem _ hj)
    have ih1 := ih h2
    simp only [List.flatMap_cons, List.append_assoc, List.singleton_append, List.cons_append,
      List.nil_append]
    generalize hrest : (is.flatMap fun i => i ++ [newline]) ++ t = rest at ih1 ⊢
    constructor
    · intro hmem
      rcases List.mem_cons.mp hmem with hi | hmem
      · subst hi
        exact Or.inl ⟨rest, rfl⟩
      · rcases ih1.mp hmem with ⟨b, hb⟩ | ⟨a, b, hab⟩
        · exact Or.inr ⟨i, b, by rw [hb]⟩
        · exact Or.inr ⟨i ++ newline :: a, b, by simp [hab]⟩
    · rintro (⟨b, hb⟩ | ⟨a, b, hab⟩)
      · cases i with
        | nil => exact List.mem_cons_self _ _
        | cons x xs =>
          simp only [List.cons_append, List.cons.injEq] at hb
          exact absurd (by simp [hb.1]) h1
      · apply List.mem_cons_of_mem
        apply ih1.mpr
        -- the first of the two newlines is the one that ends `i`, or it lies in `rest`
        clear ih1 hrest hids h2 ih
        induction i generalizing a with
        | nil =>
          cases a with
          | nil =>
            simp only [List.nil_append, List.cons.injEq, true_and] at hab
            exact Or.inl ⟨b, hab⟩
          | cons y ys =>
            simp only [List.nil_append, List.cons_append, List.cons.injEq] at hab
            exact Or.inr ⟨ys, b, hab.2⟩
        | cons x xs ihx =>
          have hx : newline ∉ xs := fun hxs => h1 (List.mem_cons_of_mem _ hxs)
          cases a with
          | nil =>
            simp only [List.nil_append, List.cons_append, List.cons.injEq] at hab
            exact absurd (by simp [hab.1]) h1
          | cons y ys =>
            simp only [List.cons_append, List.cons.injEq] at hab
            exact ihx hx ys hab.2

theorem stringsSplit_append_sep (sep : UInt8) (a : Bytes) :
    stringsSplit sep (a ++ [sep]) = stringsSplit sep a ++ [[]] := by
  induction a with
  | nil => simp [stringsSplit]
  | cons x xs ih =>
    by_cases hx : x = sep
    · simp [stringsSplit, hx, ih]
    · obtain ⟨ids, t, hs, -⟩ := stringsSplit_spec sep xs
      cases ids with
      | nil => simp [stringsSplit, hx, ih, hs]
      | cons i is => simp [stringsSplit, hx, ih, hs]

theorem listSensors_blank_line_last (pre : Bytes) :
    ∃ front, listSensors (pre ++ [newline, newline]) = some (front ++ [[]]) := by
  refine ⟨stringsSplit newline pre, ?_⟩
  apply listSensors_of_split _ _ []
  have h : pre ++ [newline, newline] = (pre ++ [newline]) ++ [newline] := by simp
  rw [h, stringsSplit_append_sep, stringsSplit_append_sep]

theorem run_launch (env : Env) (rest : List Bytes) (s : State)
    (hmain : s.main = .ranging rest) (hcr : s.crashed = false) :
    run env (List.replicate rest.length .main) s =
      some { s with
        main := .ranging []
        counter := s.counter + (rest.length : Int)
        workers := s.workers ++ rest.map fun sensor => (sensor, WorkerPc.launched) } := by
  induction rest generalizing s with
  | nil =>
    cases s
    simp only at hmain
    subst hmain
    simp [run]
  | cons sensor rest ih =>
    have hstep : step env s .main = some { s with
        main := .ranging rest, counter := s.counter + 1,
        workers := s.workers ++ [(sensor, WorkerPc.launched)] } := by
      simp [step, hcr, stepMain, hmain]
    simp only [List.length_cons, List.replicate_succ, run, hstep]
    rw [ih { s with
        main := .ranging rest, counter := s.counter + 1,
        workers := s.workers ++ [(sensor, WorkerPc.launched)] } rfl hcr]
    simp only [List.map_cons, List.append_assoc, List.singleton_append, Nat.cast_add,
      Nat.cast_one, Option.some.injEq, State.mk.injEq, and_true, true_and]
    omega

/-- Claim C4, counterexample. The listing `"10-0001\n10-0002\n\n"` ends with a blank line, and
the sensors of the listing step are `10-0001`, `10-0002` and the empty identifier; after the
read of the listing and three turns of the loop, `Collect` has launched three workers, the
last one for the empty identifier. -/
theorem listSensors_blank_line_counterexample :
    listSensors (bytes "10-0001\n10-0002\n\n") =
        some [bytes "10-0001", bytes "10-0002", []] ∧
      [] ∈ [bytes "10-0001", bytes "10-0002", ([] : Bytes)] ∧
      (run exampleScrape [.main, .main, .main, .main] State.init).map (fun s => s.workers) =
        some [(bytes "10-0001", WorkerPc.launched), (bytes "10-0002", WorkerPc.launched),
          ([], WorkerPc.launched)] := by
  decide

/-- Claim C4, as amended. The listing step always yields a list of sensors, and this list
contains the empty identifier exactly when a line of the listing is empty: the content begins
with a newline or has two consecutive newlines. For every content that ends with a blank line
(two consecutive newlines) the empty identifier is the last entry of the list. Whenever the
listing file holds this content, `Collect` launches one worker per entry, in order: after the
read and one turn of the loop per entry the workers are exactly the entries, and in every
interleaving the workers at the deferred `Wait` and after the return are exactly the entries;
so for a content that ends with a blank line the last worker launched is the one of the
empty identifier. -/
theorem listSensors_empty_id_iff (data : Bytes) :
    ∃ ids, listSensors data = some ids ∧
      ([] ∈ ids ↔
        (∃ b, data = newline :: b) ∨ (∃ a b, data = a ++ newline :: newline :: b)) ∧
      (∀ pre, data = pre ++ [newline, newline] → ids.getLast? = some []) ∧
      (∀ env : Env, env.readFile (listingPath env) = some data →
        run env (List.replicate (ids.length + 1) .main) State.init =
            some { State.init with
              main := .ranging []
              counter := (ids.length : Int)
              workers := ids.map fun sensor => (sensor, WorkerPc.launched)
              reads := [listingPath env] } ∧
          (∀ s, Reachable env s → s.main = .waiting ∨ s.main = .returned →
            s.workers.map Prod.fst = ids) ∧
          (∀ pre, data = pre ++ [newline, newline] →
            ∀ s, Reachable env s → s.main = .waiting ∨ s.main = .returned →
              ∃ pc, s.workers.getLast? = some ([], pc))) := by
  obtain ⟨ids, t, hs, ht, hids, hj, -⟩ := stringsSplit_spec newline data
  have hlist := listSensors_of_split data ids t hs
  have hlast : ∀ pre, data = pre ++ [newline, newline] → ids.getLast? = some [] := by
    intro pre hpre
    obtain ⟨front, hfront⟩ := listSensors_blank_line_last pre
    rw [← hpre, hlist] at hfront
    cases hfront
    simp
  have hworkers : ∀ env : Env, env.readFile (listingPath env) = some data →
      ∀ s, Reachable env s → s.main = .waiting ∨ s.main = .returned →
        s.workers.map Prod.fst = ids := by
    intro env hread s hreach hmain
    have hm := (inv_of_reachable hreach).main_ok
    have hd := discovered_of_read hread hlist
    rcases hmain with hmain | hmain
    · simp only [MainOk, hmain] at hm
      rw [← hm.2, hd]
    · simp only [MainOk, hmain] at hm
      rw [← hm.2.1, hd]
  refine ⟨ids, hlist, ?_, hlast, ?_⟩
  · have := empty_line_iff ids t hids ht
    rw [hj] at this
    exact this
  · intro env hread
    refine ⟨?_, hworkers env hread, ?_⟩
    · have hstep : step env State.init .main =
          some { State.init with main := .ranging ids, reads := [listingPath env] } := by
        simp [step, stepMain, State.init, hread, hlist]
      simp only [List.replicate_succ, run, hstep]
      rw [run_launch env ids _ rfl rfl]
      simp [State.init]
    · intro pre hpre s hreach hmain
      have h1 := hworkers env hread s hreach hmain
      have h2 := hlast pre hpre
      rw [← h1, List.getLast?_map] at h2
      cases hw : s.workers.getLast? with
      | none => simp [hw] at h2
      | some w =>
        obtain ⟨sensor, pc⟩ := w
        simp only [hw, Option.map_some', Option.some.injEq] at h2
        exact ⟨pc, by rw [← h2]⟩

/-- Claim C4, witness: the listing `"10-0001\n10-0002\n\n"` of the example scrape. At the
deferred `Wait` and after the return the workers are, in every interleaving, those of
`10-0001`, of `10-0002` and of the empty identifier. -/
theorem listSensors_empty_id_iff_witness :
    exampleScrape.readFile (listingPath exampleScrape) = some (bytes "10-0001\n10-0002\n\n") ∧
      bytes "10-0001\n10-0002\n\n" = bytes "10-0001\n10-0002" ++ [newline, newline] ∧
      ∀ s, Reachable exampleScrape s → s.main = .waiting ∨ s.main = .returned →
        s.workers.map Prod.fst = [bytes "10-0001", bytes "10-0002", []] ∧
          ∃ pc, s.workers.getLast? = some ([], pc) :=
  ⟨by decide, by decide, fun s hs hmain =>
    match listSensors_empty_id_iff (bytes "10-0001\n10-0002\n\n") with
    | ⟨ids, hlist, _, _, hrun⟩ =>
      have hids : ids = [bytes "10-0001", bytes "10-0002", []] :=
        Option.some.inj (hlist.symm.trans (by decide))
      ⟨hids ▸ (hrun exampleScrape (by decide)).2.1 s hs hmain,
        (hrun exampleScrape (by decide)).2.2 (bytes "10-0001\n10-0002") (by decide)
          s hs hmain⟩⟩

/-- Claim C7. A listing made of identifiers without newline, each followed by `"\n"`, is
turned by the listing step into exactly these identifiers, in order. -/
theorem listSensors_roundtrip (ids : List Bytes) (h : ∀ i ∈ ids, newline ∉ i) :
    listSensors (ids.flatMap fun i => i ++ [newline]) = some ids :=
  listSensors_of_split _ ids [] (stringsSplit_lines newline ids h)

/-- Claim C7, witness: the round trip of two identifiers. -/
theorem listSensors_roundtrip_witness :
    (∀ i ∈ [bytes "10-0001", bytes "10-0002"], newline ∉ i) ∧
      listSensors ([bytes "10-0001", bytes "10-0002"].flatMap fun i => i ++ [newline]) =
        some [bytes "10-0001", bytes "10-0002"] :=
  ⟨by decide, listSensors_roundtrip [bytes "10-0001", bytes "10-0002"] (by decide)⟩

/-- Claim C9. The listing step yields as many sensors as the content has newlines; the
sensors, each followed by `"\n"`, make up the content up to its last newline, and what follows
the last newline (the part `t`, empty or not) is dropped. So `"10-0001\n10-0002"` yields only
`10-0001`, and a content without newline yields no sensor. -/
theorem listSensors_drops_tail (data : Bytes) :
    (∃ ids t, listSensors data = some ids ∧ ids.length = data.count newline ∧
        newline ∉ t ∧ (ids.flatMap fun i => i ++ [newline]) ++ t = data) ∧
      (newline ∉ data → listSensors data = some []) ∧
      listSensors (bytes "10-0001\n10-0002") = some [bytes "10-0001"] := by
  obtain ⟨ids, t, hs, ht, -, hj, hl⟩ := stringsSplit_spec newline data
  have hlist := listSensors_of_split data ids t hs
  refine ⟨⟨ids, t, hlist, hl, ht, hj⟩, ?_, by decide⟩
  intro hno
  have : ids.length = 0 := by rw [hl]; exact List.count_eq_zero_of_not_mem hno
  rw [hlist, List.length_eq_zero.mp this]

/-! ## The scrape -/

theorem run_closed (env : Env) (P : State → Prop)
    (hstep : ∀ s t s1, P s → step env s t = some s1 → P s1) :
    ∀ (sched : List Thread) (s s1 : State), P s → run env sched s = some s1 → P s1 := by
  intro sched
  induction sched with
  | nil =>
    intro s s1 hs h
    simp only [run, Option.some.injEq] at h
    exact h ▸ hs
  | cons t sched ih =>
    intro s s1 hs h
    simp only [run] at h
    split at h
    · cases h
    · rename_i s2 hs2
      exact ih s2 s1 (hstep s t s2 hs hs2) h

theorem unreadable_states {env : Env} (h : env.readFile (listingPath env) = none) (s : State)
    (hs : Reachable env s) :
    s = State.init ∨ s = { State.init with main := .waiting, reads := [listingPath env] } ∨
      s = { State.init with main := .returned, reads := [listingPath env] } := by
  obtain ⟨sched, hrun⟩ := hs
  refine run_closed env
    (fun s => s = State.init ∨
      s = { State.init with main := .waiting, reads := [listingPath env] } ∨
      s = { State.init with main := .returned, reads := [listingPath env] })
    ?_ sched State.init s (Or.inl rfl) hrun
  intro s t s1 hP hstep
  rcases hP with rfl | rfl | rfl
  · cases t with
    | main =>
      simp [step, stepMain, State.init, h] at hstep
      exact Or.inr (Or.inl hstep.symm)
    | worker i => simp [step, stepWorker, State.init] at hstep
  · cases t with
    | main =>
      simp [step, stepMain, State.init] at hstep
      exact Or.inr (Or.inr hstep.symm)
    | worker i => simp [step, stepWorker, State.init] at hstep
  · cases t with
    | main => simp [step, stepMain, State.init] at hstep
    | worker i => simp [step, stepWorker, State.init] at hstep

/-- Claim C2. When the listing file is unreadable, every interleaving of `Collect` sends
nothing, launches no worker, reads no file but the listing, and does not abort; `Collect`
returns after its two steps (the failed read and the deferred `Wait` on a counter that is
zero), and a scrape that is over can only be in that state. -/
theorem collect_listing_unreadable (env : Env) (h : env.readFile (listingPath env) = none) :
    (∀ s, Reachable env s →
        s.sink = [] ∧ s.workers = [] ∧ s.counter = 0 ∧ s.crashed = false ∧
          ∀ p ∈ s.reads, p = listingPath env) ∧
      run env [.main, .main] State.init =
        some { State.init with main := .returned, reads := [listingPath env] } ∧
      (∀ s, Reachable env s → Final env s →
        s = { State.init with main := .returned, reads := [listingPath env] }) := by
  refine ⟨?_, ?_, ?_⟩
  · intro s hs
    rcases unreadable_states h s hs with rfl | rfl | rfl <;> simp [State.init]
  · simp [run, step, stepMain, State.init, h]
  · intro s hs hf
    rcases unreadable_states h s hs with rfl | rfl | rfl
    · have := hf .main
      simp [step, stepMain, State.init, h] at this
    · have := hf .main
      simp [step, stepMain, State.init] at this
    · rfl

/-- Claim C2, witness: the example environment without any file. -/
theorem collect_listing_unreadable_witness :
    (exampleEnv []).readFile (listingPath (exampleEnv [])) = none ∧
      ∀ s, Reachable (exampleEnv []) s → s.sink = [] ∧ s.workers = [] :=
  ⟨by decide, fun s hs =>
    ⟨((collect_listing_unreadable (exampleEnv []) (by decide)).1 s hs).1,
      ((collect_listing_unreadable (exampleEnv []) (by decide)).1 s hs).2.1⟩⟩

theorem step_of_done {env : Env} {s s1 : State} {t : Thread}
    (hmain : s.main = .returned)
    (hdone : ∀ w ∈ s.workers, w.2 = WorkerPc.finished ∨ w.2 = WorkerPc.aborting)
    (h : step env s t = some s1) :
    s1.main = .returned ∧ s1.workers = s.workers ∧ s1.sink = s.sink ∧
      s1.counter = s.counter ∧ s1.reads = s.reads := by
  unfold step at h
  split at h
  · cases h
  · cases t with
    | main => simp [stepMain, hmain] at h
    | worker i =>
      simp only [stepWorker] at h
      split at h
      · cases h
      · rename_i sensor pc hget
        have hmem : (sensor, pc) ∈ s.workers := List.mem_iff_getElem?.mpr ⟨i, hget⟩
        rcases hdone _ hmem with hpc | hpc
        · simp only at hpc
          subst hpc
          cases h
        · simp only at hpc
          subst hpc
          cases h
          exact ⟨hmain, rfl, rfl, rfl, rfl⟩

/-- Claim C8. In every interleaving, once `Collect` has returned every worker it launched (one
per discovered sensor) has run its deferred `Done`: it has ended, or it is the panicking
goroutine that the runtime is aborting; the counter is zero; and whatever runs afterwards
sends nothing more on the channel. A worker at its return, after an error or after its send,
always decrements the counter when scheduled; the counter is the number of workers whose
`Done` has not run; and the scrape can always be run to its end, where `Collect` has returned
unless the process is aborted. -/
theorem collect_returns_after_workers (env : Env) (s : State) (hs : Reachable env s) :
    (s.main = .returned →
        (∀ w ∈ s.workers, w.2 = WorkerPc.finished ∨ w.2 = WorkerPc.aborting) ∧
          s.workers.map Prod.fst = discovered env ∧ s.counter = 0 ∧
          ∀ sched s1, run env sched s = some s1 → s1.main = .returned ∧ s1.sink = s.sink) ∧
      (s.crashed = false → ∀ i sensor, s.workers[i]? = some (sensor, WorkerPc.returning) →
        ∃ s1, step env s (.worker i) = some s1 ∧ s1.counter = s.counter - 1 ∧
          s1.workers[i]? = some (sensor, WorkerPc.finished)) ∧
      (s.counter = ((s.workers.filter fun w => w.2.pending).length : Int)) ∧
      (∃ sched s1, run env sched s = some s1 ∧ Final env s1) ∧
      (Final env s → s.crashed = true ∨ s.main = .returned) := by
  have hinv := inv_of_reachable hs
  refine ⟨?_, ?_, ?_, exists_final env s, fun hf => (final_cases hinv hf).imp id And.left⟩
  · intro hmain
    have hdone := returned_workers hinv hmain
    have hm := hinv.main_ok
    simp only [MainOk, hmain] at hm
    refine ⟨hdone, hm.2.1.symm, ?_, ?_⟩
    · rw [hinv.counter_eq, hm.2.2]
      rfl
    · intro sched s1 hrun
      have := run_closed env
        (fun x => x.main = .returned ∧ x.workers = s.workers ∧ x.sink = s.sink)
        (fun x t x1 hx hstep => by
          have h1 := step_of_done hx.1 (by rw [hx.2.1]; exact hdone) hstep
          exact ⟨h1.1, h1.2.1.trans hx.2.1, h1.2.2.1.trans hx.2.2⟩)
        sched s s1 ⟨hmain, rfl, rfl⟩ hrun
      exact ⟨this.1, this.2.2⟩
  · intro hcr i sensor hget
    have hi : i < s.workers.length := by
      by_contra hge
      rw [List.getElem?_eq_none (by omega)] at hget
      cases hget
    refine ⟨_, by simp only [step, hcr, stepWorker, hget]; rfl, rfl, ?_⟩
    simp [hi]
  · rw [hinv.counter_eq, pendingCount, List.countP_eq_length_filter]

/-- Claim C8, witness: the example scrape, run to the return of
`Collect` under `exampleSchedule`. -/
theorem collect_returns_after_workers_witness :
    Reachable exampleScrape exampleFinal ∧ exampleFinal.main = .returned ∧
      ∀ w ∈ exampleFinal.workers, w.2 = WorkerPc.finished ∨ w.2 = WorkerPc.aborting :=
  ⟨⟨exampleSchedule, by decide⟩, by decide,
    ((collect_returns_after_workers exampleScrape exampleFinal
      ⟨exampleSchedule, by decide⟩).1 (by decide)).1⟩

theorem sentBy_countP_le (env : Env) (id : Bytes) (w : Bytes × WorkerPc) :
    (sentBy env w).countP (fun m => decide (m.label "sensor_id" = some id)) ≤
      if w.1 = id then 1 else 0 := by
  have key : ((emitted env w.1).toList).countP
      (fun m => decide (m.label "sensor_id" = some id)) ≤ if w.1 = id then 1 else 0 := by
    cases he : emitted env w.1 with
    | none => simp
    | some m =>
      have hl := (emitted_labels he).1
      by_cases hid : w.1 = id <;> simp [hl, hid]
  unfold sentBy
  cases w.2 <;> first | exact key | simp

theorem sink_countP_le {env : Env} {s : State} (hinv : Inv env s) (id : Bytes) :
    s.sink.countP (fun m => decide (m.label "sensor_id" = some id)) ≤
      (discovered env).count id := by
  rw [hinv.sink_perm.countP_eq]
  obtain ⟨rest, hrest⟩ := workers_discovered hinv
  rw [hrest, List.count_append]
  have : ∀ ws : List (Bytes × WorkerPc),
      (ws.flatMap (sentBy env)).countP (fun m => decide (m.label "sensor_id" = some id)) ≤
        (ws.map Prod.fst).count id := by
    intro ws
    induction ws with
    | nil => simp
    | cons w ws ih =>
      have h1 := sentBy_countP_le env id w
      simp only [List.flatMap_cons, List.countP_append, List.map_cons, List.count_cons]
      by_cases hid : w.1 = id
      · simp only [hid, if_true, beq_self_eq_true] at h1 ⊢
        omega
      · have hne : (w.1 == id) = false := by simpa using hid
        simp only [hid, if_false, hne] at h1 ⊢
        simp only [Bool.false_eq_true, if_false]
        omega
  exact Nat.le_trans (this s.workers) (Nat.le_add_right _ _)

/-- Claim C6, counterexample. The listing names `10-0001` on two lines; the scrape runs to
the return of `Collect` and the two samples sent both carry `sensor_id = 10-0001`. -/
theorem collect_duplicate_counterexample :
    (run duplicateScrape duplicateSchedule State.init).map
        (fun s => (s.main, s.crashed, s.sink.map fun m => m.label "sensor_id")) =
      some (.returned, false, [some (bytes "10-0001"), some (bytes "10-0001")]) := by
  decide

/-- Claim C6, as amended. In every interleaving and at every moment of a scrape, the samples
sent that carry a given `sensor_id` are at most as many as the lines of the listing that name
this identifier: at most one sample per line, so at most one per identifier when the listing
names each identifier once. -/
theorem collect_one_sample_per_line (env : Env) (s : State) (hs : Reachable env s)
    (id : Bytes) :
    s.sink.countP (fun m => decide (m.label "sensor_id" = some id)) ≤
      (discovered env).count id :=
  sink_countP_le (inv_of_reachable hs) id

/-- Claim C6, witness: in the scrape whose listing names `10-0001`
twice, the bound two is reached. -/
theorem collect_one_sample_per_line_witness :
    Reachable duplicateScrape duplicateFinal ∧
      duplicateFinal.sink.countP (fun m => decide (m.label "sensor_id" = some (bytes "10-0001")))
        ≤ (discovered duplicateScrape).count (bytes "10-0001") ∧
      (discovered duplicateScrape).count (bytes "10-0001") = 2 :=
  ⟨⟨duplicateSchedule, by decide⟩,
    collect_one_sample_per_line duplicateScrape duplicateFinal ⟨duplicateSchedule, by decide⟩
      (bytes "10-0001"),
    by decide⟩

/-- Claim C3. The method `Describe` sends no descriptor at all, although the descriptor
`Temperature` has the name, help and label names of the claim. -/
theorem describe_sends_nothing :
    Describe = [] ∧ Describe.length ≠ 1 ∧
      Temperature =
        { fqName := "onewire_temperature_celcius", help := "Temperature of the sensor.",
          variableLabels := ["sensor_id", "sensor_name"] } := by
  decide

/-- Claim C5. On an empty value file the slice of line 133 is out of bounds and the worker
panics, whatever the parser; in the scrape `emptyFileScrape` this aborts the process before
the worker of the readable sensor `10-0002` has sent its sample. -/
theorem worker_empty_file_panics :
    (∀ (env : Env) (sensor : Bytes), workerBody env sensor (some []) = .panic) ∧
      goSlice ([] : Bytes) 0 ((([] : Bytes).length : Int) - 1) = none ∧
      (run emptyFileScrape emptyFileSchedule State.init).map
          (fun s => (s.crashed, s.main, s.sink)) = some (true, .ranging [], []) ∧
      (emitted emptyFileScrape (bytes "10-0002")).isSome = true := by
  refine ⟨fun env sensor => by simp [workerBody, goSlice], by decide, by decide, by decide⟩

/-- Claim C10. For a non-empty content the worker hands to the parser the content without its
last byte, and its outcome depends on the content only through that text: changing the last
byte changes nothing. -/
theorem worker_strips_last_byte (env : Env) (sensor content : Bytes) (h : content ≠ []) :
    workerBody env sensor (some content) =
        (match env.parseFloat content.dropLast with
          | none => Outcome.parseError
          | some temperature =>
            match MustNewConstMetric Temperature .gauge (f64DivNat temperature 1000)
                [sensor, sensor] with
            | none => Outcome.panic
            | some m => Outcome.emit m) ∧
      ∀ b : UInt8, workerBody env sensor (some (content.dropLast ++ [b])) =
        workerBody env sensor (some content) := by
  have key : ∀ c : Bytes, c ≠ [] → workerBody env sensor (some c) =
      (match env.parseFloat c.dropLast with
        | none => Outcome.parseError
        | some temperature =>
          match MustNewConstMetric Temperature .gauge (f64DivNat temperature 1000)
              [sensor, sensor] with
          | none => Outcome.panic
          | some m => Outcome.emit m) := by
    intro c hc
    simp only [workerBody, goSlice_dropLast c hc]
  refine ⟨key content h, fun b => ?_⟩
  rw [key content h, key _ (by simp)]
  simp

/-- Claim C10, witness: the content `"23250"` without newline is parsed as
`"2325"` and gives the value `2.325`, while `"23250\n"` gives `23.25`. -/
theorem worker_strips_last_byte_witness :
    bytes "23250" ≠ [] ∧
      workerBody (exampleEnv []) (bytes "10-0001") (some (bytes "23250")) =
        .emit (temperatureMetric (bytes "10-0001") f64_2_325) ∧
      (bytes "23250").dropLast = bytes "2325" ∧
      workerBody (exampleEnv []) (bytes "10-0001") (some (bytes "23250\n")) =
        .emit (temperatureMetric (bytes "10-0001") f64_23_25) :=
  ⟨by decide,
    (worker_strips_last_byte (exampleEnv []) (bytes "10-0001") (bytes "23250")
      (by decide)).1.trans (by decide),
    by decide, by decide⟩

theorem f64_example_values :
    f64_23_25.toRat = some (93 / 4) ∧
      (∃ q, f64_18_9.toRat = some q ∧ |q - 189 / 10| ≤ 1 / 2 ^ 49) ∧
      (∃ q, f64_2_325.toRat = some q ∧ |q - 93 / 40| ≤ 1 / 2 ^ 52) := by
  refine ⟨?_, ⟨_, rfl, ?_⟩, ⟨_, rfl, ?_⟩⟩
  · norm_num [f64_23_25, Float64.toRat]
  · norm_num [abs_le]
  · norm_num [abs_le]

/-- Claim C1, counterexample. First, with the listing `"10-0001\n10-0002\n10-0001\n"` and both
value files fine, `Collect` returns having sent two samples for the one identifier `10-0001`
(three samples for two sensors). Second, with the value file of `10-0001` empty and the one of
`10-0002` fine, an interleaving aborts the process with nothing sent, although `10-0002` is
readable and parses. -/
theorem collect_samples_counterexample :
    ((run repeatedScrape repeatedSchedule State.init).map
        (fun s => (s.main, s.crashed, s.sink.map fun m => m.label "sensor_id")) =
      some (.returned, false,
        [some (bytes "10-0001"), some (bytes "10-0002"), some (bytes "10-0001")])) ∧
    ((run emptyFileScrape emptyFileSchedule State.init).map
        (fun s => (s.crashed, s.sink.length)) = some (true, 0) ∧
      emitted emptyFileScrape (bytes "10-0002") =
        some (temperatureMetric (bytes "10-0002") f64_18_9) ∧
      discovered emptyFileScrape = [bytes "10-0001", bytes "10-0002"]) := by
  decide

/-- Claim C1, as amended. Let the listing file be readable and let no worker of a listed
sensor panic; a worker panics exactly when its value file is empty, or when its content parses
and its identifier is not valid UTF-8. Then every interleaving of `Collect` ends, within
`5 * N + 4` steps for `N` listing entries, with `Collect` returned and the process not aborted;
when `Collect` has returned, the samples sent are, up to order, one sample for each listing
entry (an identifier listed on several lines counts once per line) whose value file is
readable, not empty and, without its last byte, accepted by the parser, and none for the other
entries. The sample of an entry carries `sensor_id` and `sensor_name` equal to the entry and
the `float64` quotient of the parsed number by `1000`; when the parsed number is the integer
`± raw` below `2 ^ 53`, this value is `± raw / 1000` up to the relative error `2 ^ -53`. -/
theorem collect_samples (env : Env) (data : Bytes)
    (hread : env.readFile (listingPath env) = some data)
    (hpanic : ∀ sensor ∈ discovered env, sensorOutcome env sensor ≠ .panic) :
    listSensors data = some (discovered env) ∧
      (∀ sched s, run env sched State.init = some s →
        sched.length ≤ 5 * (discovered env).length + 4) ∧
      (∀ s, Reachable env s → ∃ sched s1, run env sched s = some s1 ∧ Final env s1) ∧
      (∀ s, Reachable env s → Final env s → s.main = .returned ∧ s.crashed = false) ∧
      (∀ s, Reachable env s → s.main = .returned →
        s.sink.Perm ((discovered env).filterMap (emitted env)) ∧
          s.sink.length = (discovered env).countP fun sensor => (emitted env sensor).isSome) ∧
      (∀ sensor m, emitted env sensor = some m ↔
        ∃ content temperature,
          env.readFile (temperaturePath env sensor) = some content ∧ content ≠ [] ∧
            env.parseFloat content.dropLast = some temperature ∧
            utf8ValidString sensor = true ∧
            m = { desc := Temperature, valueType := .gauge,
                  value := f64DivNat temperature 1000, labelValues := [sensor, sensor] }) ∧
      (∀ sensor m, emitted env sensor = some m →
        m.label "sensor_id" = some sensor ∧ m.label "sensor_name" = some sensor) ∧
      (∀ s, Reachable env s → s.main = .returned → ∀ sensor, emitted env sensor = none →
        ∀ m ∈ s.sink, m.label "sensor_id" ≠ some sensor) ∧
      (∀ sensor m content neg mant exp (raw : Nat), emitted env sensor = some m →
        env.readFile (temperaturePath env sensor) = some content →
        env.parseFloat content.dropLast = some (.fin neg mant exp) →
        (mant : ℚ) * (2 : ℚ) ^ exp = raw → raw < 2 ^ 53 →
        ∃ q, m.value.toRat = some q ∧
          |q - (if neg then -1 else 1) * ((raw : ℚ) / 1000)| ≤ (raw : ℚ) / 1000 / 2 ^ 53) ∧
      (∀ sensor, sensorOutcome env sensor = .panic ↔
        env.readFile (temperaturePath env sensor) = some [] ∨
          ∃ content temperature,
            env.readFile (temperaturePath env sensor) = some content ∧ content ≠ [] ∧
              env.parseFloat content.dropLast = some temperature ∧
              utf8ValidString sensor = false) := by
  have hperm : ∀ s, Reachable env s → s.main = .returned →
      s.sink.Perm ((discovered env).filterMap (emitted env)) :=
    fun s hs hmain => sink_of_returned (inv_of_reachable hs) hmain
  refine ⟨?_, ?_, fun s _ => exists_final env s, ?_, ?_, emitted_eq_some_iff env,
    fun sensor m h => emitted_labels h, ?_, ?_, sensorOutcome_panic_iff env⟩
  · obtain ⟨ids, hids⟩ := listSensors_total data
    rw [hids, discovered_of_read hread hids]
  · intro sched s hrun
    have h1 := stepsLeft_run sched hrun
    have h2 : stepsLeft env State.init = 5 * (discovered env).length + 4 := by
      simp [stepsLeft, State.init, mainRemaining]
    omega
  · intro s hs hf
    have hinv := inv_of_reachable hs
    have hcr := not_crashed_of_no_panic hinv hpanic
    rcases final_cases hinv hf with h | h
    · rw [hcr] at h
      cases h
    · exact ⟨h.1, hcr⟩
  · intro s hs hmain
    refine ⟨hperm s hs hmain, ?_⟩
    rw [(hperm s hs hmain).length_eq, List.length_filterMap_eq_countP]
  · intro s hs hmain sensor hnone m hm hlabel
    have hmem : m ∈ (discovered env).filterMap (emitted env) := (hperm s hs hmain).subset hm
    obtain ⟨sensor1, -, he⟩ := List.mem_filterMap.mp hmem
    have hl := (emitted_labels he).1
    rw [hl] at hlabel
    cases hlabel
    rw [hnone] at he
    cases he
  · intro sensor m content neg mant exp raw he hc hparse hraw hlt
    obtain ⟨content1, t, hc1, -, hparse1, -, hm⟩ := (emitted_eq_some_iff env sensor m).mp he
    rw [hc] at hc1
    cases hc1
    rw [hparse] at hparse1
    cases hparse1
    subst hm
    exact f64Div1000_accurate neg mant exp raw hraw hlt

/-- Claim C1, witness: the scrape of the specification's example. Whenever
`Collect` has returned, the samples are, up to order, `10-0001` with `23.25` and `10-0002` with
`18.9`; the empty identifier of the blank line gives none. With `"notanumber\n"` for `10-0001`
the only sample is the one of `10-0002`. The two values are `93 / 4` and the `float64` nearest
to `189 / 10`. -/
theorem collect_samples_witness :
    exampleScrape.readFile (listingPath exampleScrape) = some (bytes "10-0001\n10-0002\n\n") ∧
      (∀ sensor ∈ discovered exampleScrape, sensorOutcome exampleScrape sensor ≠ .panic) ∧
      (∀ s, Reachable exampleScrape s → s.main = .returned →
        s.sink.Perm [temperatureMetric (bytes "10-0001") f64_23_25,
          temperatureMetric (bytes "10-0002") f64_18_9]) ∧
      (∀ s, Reachable badNumberScrape s → s.main = .returned →
        s.sink.Perm [temperatureMetric (bytes "10-0002") f64_18_9]) ∧
      f64_23_25.toRat = some (93 / 4) ∧
      (∃ q, f64_18_9.toRat = some q ∧ |q - 189 / 10| ≤ 1 / 2 ^ 49) :=
  ⟨by decide, by decide,
    fun s hs hmain =>
      (show (discovered exampleScrape).filterMap (emitted exampleScrape) =
          [temperatureMetric (bytes "10-0001") f64_23_25,
            temperatureMetric (bytes "10-0002") f64_18_9] by decide) ▸
        ((collect_samples exampleScrape (bytes "10-0001\n10-0002\n\n") (by decide)
          (by decide)).2.2.2.2.1 s hs hmain).1,
    fun s hs hmain =>
      (show (discovered badNumberScrape).filterMap (emitted badNumberScrape) =
          [temperatureMetric (bytes "10-0002") f64_18_9] by decide) ▸
        ((collect_samples badNumberScrape (bytes "10-0001\n10-0002\n") (by decide)
          (by decide)).2.2.2.2.1 s hs hmain).1,
    f64_example_values.1, f64_example_values.2.1⟩

end OneWire
